import Mathlib

/-!
Verification of the I/O-wait engines of `psycopg/waiting.py`.

The module drives "resumable operations" (Python generators) that suspend
yielding a readiness mask (`Wait.R = 1`, `Wait.W = 2`, `Wait.RW = 3`) and are
resumed with a ready state (`Ready.R = 1`, `Ready.W = 2`).  We embed each wait
engine as a fuel-bounded interpreter.  A generator is modelled as a function
from the history of ready states already sent to it to its next step (either a
new suspension or a final value), which captures an arbitrary deterministic
generator.  The operating system is modelled by an oracle indexed by the count
of polling calls made so far; the readiness-multiplexing primitives
(`selectors` selector, raw `select.select`, `epoll`, asyncio callbacks) are
modelled on top of the oracle with their documented semantics: they only ever
report conditions that were actually registered (plus, for epoll, the
always-reported error/hangup flags).  Every engine run returns an `Outcome`
together with the trace of externally visible actions (registrations,
deregistrations, polls, callback add/remove, resumptions, re-arms), so that
descriptor-lifecycle properties are statements about traces.
-/

namespace Psycopg

/-- `Wait.R` (readable interest), numerically 1 as in `_enums.Wait`. -/
def WAIT_R : Nat := 1

/-- `Wait.W` (writable interest), numerically 2. -/
def WAIT_W : Nat := 2

/-- `Wait.RW = R | W`. -/
def WAIT_RW : Nat := 3

/-- `Ready.R`, numerically 1 as in `_enums.Ready`. -/
def READY_R : Nat := 1

/-- `Ready.W`, numerically 2. -/
def READY_W : Nat := 2

/-- Linux `select.EPOLLIN`. -/
def EPOLLIN : Nat := 1

/-- Linux `select.EPOLLOUT`. -/
def EPOLLOUT : Nat := 4

/-- Linux `select.EPOLLERR` (always reported by epoll, cannot be masked). -/
def EPOLLERR : Nat := 8

/-- Linux `select.EPOLLHUP` (always reported by epoll, cannot be masked). -/
def EPOLLHUP : Nat := 16

/-- Linux `select.EPOLLONESHOT` (bit 30). -/
def EPOLLONESHOT : Nat := 1073741824

/-- One step of a `PQGen` generator: suspend on a mask, or finish with a value. -/
inductive GenStep (RV : Type) where
  | wait (s : Nat)
  | done (rv : RV)
deriving DecidableEq

/-- A deterministic `PQGen[RV]` generator, as a function from the list of
ready states sent to it so far to its next step.  `gen []` models `next(gen)`;
`gen (hist ++ [r])` models the step after `gen.send(r)` given earlier sends
`hist`. -/
def Gen (RV : Type) : Type := List Nat → GenStep RV

/-- One step of a `PQGenConn` generator: suspend on a `(fileno, mask)` pair
(the descriptor may change between steps), or finish. -/
inductive GenStepC (RV : Type) where
  | wait (fd s : Nat)
  | done (rv : RV)
deriving DecidableEq

/-- A deterministic `PQGenConn[RV]` generator (history function, as `Gen`). -/
def GenC (RV : Type) : Type := List Nat → GenStepC RV

/-- Result of one engine invocation. `pyError` stands for an exception coming
from the Python runtime/stdlib rather than from psycopg itself (AssertionError,
ValueError of `selectors.register`, KeyError of the `poll_evmasks` dict);
`cancelled` is an exception raised into the cooperative wait from outside;
`hang` means the engine is blocked forever on a wait that can never be
satisfied; `fuelOut` means the interpreter's step bound was exhausted. -/
inductive Outcome (RV : Type) where
  | ok (rv : RV)
  | connTimeout
  | internalErr (s : Nat)
  | pyError
  | cancelled
  | hang
  | fuelOut
deriving DecidableEq

/-- Externally visible actions of an engine, in program order. -/
inductive Ev where
  | register (fd mask : Nat)
  | unregister (fd : Nat)
  | selPoll (tmo : Option ℚ) (evs : List Nat)
  | rawPoll (tmo : Option ℚ) (rl wl xl : Bool)
  | epPoll (tmo : Int) (evs : List Nat)
  | resume (ready : Nat)
  | modify (fd mask : Nat)
  | addReader (fd : Nat)
  | addWriter (fd : Nat)
  | removeReader (fd : Nat)
  | removeWriter (fd : Nat)
deriving DecidableEq

/-! ### The `selectors`-based engines (`wait_selector`, `wait_conn`) -/

/-- Events reported for the sole registered key by `sel.select`, given the
registered event mask and the oracle's readiness `(readable, writable)` for
this poll.  A selector only reports events that are registered. -/
def sel_events (mask : Nat) (o : Bool × Bool) : Nat :=
  (if o.1 then mask &&& WAIT_R else 0) ||| (if o.2 then mask &&& WAIT_W else 0)

/-- Result list of `sel.select`: empty (timeout expired / nothing ready), or
the single `(key, events)` entry projected to its events field, as consumed by
`rlist[0][1]`. -/
def sel_result (mask : Nat) (o : Bool × Bool) : List Nat :=
  let ev := sel_events mask o
  if ev = 0 then [] else [ev]

/-- Result of the inner `while not rlist: rlist = sel.select(...)` loop of
`wait_selector`. -/
inductive PollRes where
  | got (evs : List Nat) (pc : Nat)
  | hung
  | fuelOut
deriving DecidableEq

/-- The inner retry loop of `wait_selector` (lines 53-55): keep calling
`sel.select` until it returns a non-empty list.  With `timeout=None` the call
blocks, so a poll that observes no readiness never returns (`hung`). -/
def selRetry (os : Nat → Bool × Bool) (mask : Nat) (tmo : Option ℚ) :
    Nat → Nat → PollRes × List Ev
  | 0, _ => (.fuelOut, [])
  | fuel + 1, pc =>
    let evs := sel_result mask (os pc)
    if evs.isEmpty then
      if tmo.isNone then (.hung, [.selPoll tmo []])
      else
        let p := selRetry os mask tmo fuel (pc + 1)
        (p.1, .selPoll tmo [] :: p.2)
    else (.got evs (pc + 1), [.selPoll tmo evs])

/-- The loop of `wait_selector` (lines 51-60): register, inner poll loop,
unregister, `assert s & ready`, send.  `sel.register` raises `ValueError` when
the mask is not one of `Wait.R/W/RW` (modelled as `pyError` before any
registration becomes active). -/
def selectorRun {RV : Type} (gen : Gen RV) (os : Nat → Bool × Bool) (fileno : Nat)
    (tmo : Option ℚ) : Nat → List Nat → Nat → Nat → Outcome RV × List Ev
  | 0, _, _, _ => (.fuelOut, [])
  | fuel + 1, hist, s, pc =>
    if s = 0 || 3 < s then (.pyError, [])
    else
      let q := selRetry os s tmo fuel pc
      match q.1 with
      | .fuelOut => (.fuelOut, .register fileno s :: q.2)
      | .hung => (.hang, .register fileno s :: q.2)
      | .got evs pc2 =>
        let ready := evs.headD 0
        if s &&& ready = 0 then (.pyError, .register fileno s :: q.2 ++ [.unregister fileno])
        else
          match gen (hist ++ [ready]) with
          | .done rv =>
            (.ok rv, .register fileno s :: q.2 ++ [.unregister fileno, .resume ready])
          | .wait s2 =>
            let p := selectorRun gen os fileno tmo fuel (hist ++ [ready]) s2 pc2
            (p.1, .register fileno s :: q.2 ++ [.unregister fileno, .resume ready] ++ p.2)

/-- `wait_selector(gen, fileno, timeout)` (lines 33-64). -/
def wait_selector {RV : Type} (gen : Gen RV) (fileno : Nat) (tmo : Option ℚ)
    (os : Nat → Bool × Bool) (fuel : Nat) : Outcome RV × List Ev :=
  match gen [] with
  | .done rv => (.ok rv, [])
  | .wait s => selectorRun gen os fileno tmo fuel [] s 0

/-- `if not timeout: timeout = None` of `wait_conn`/`wait_conn_async`
(lines 83-84 and 177-178): a zero (or absent) timeout means block forever. -/
def coerceConnTimeout (tmo : Option ℚ) : Option ℚ :=
  match tmo with
  | none => none
  | some t => if t = 0 then none else some t

/-- The loop of `wait_conn` (lines 86-93): register the descriptor yielded by
the generator, one `sel.select` with the per-cycle timeout, unregister, raise
`ConnectionTimeout` on an empty result, otherwise send the ready state and
loop with the (possibly different) descriptor of the next suspension. -/
def connRun {RV : Type} (gen : GenC RV) (os : Nat → Bool × Bool) (tmo : Option ℚ) :
    Nat → List Nat → Nat → Nat → Nat → Outcome RV × List Ev
  | 0, _, _, _, _ => (.fuelOut, [])
  | fuel + 1, hist, fd, s, pc =>
    if s = 0 || 3 < s then (.pyError, [])
    else
      let evs := sel_result s (os pc)
      if evs.isEmpty then
        if tmo.isNone then (.hang, [.register fd s, .selPoll tmo []])
        else (.connTimeout, [.register fd s, .selPoll tmo [], .unregister fd])
      else
        let ready := evs.headD 0
        match gen (hist ++ [ready]) with
        | .done rv => (.ok rv, [.register fd s, .selPoll tmo evs, .unregister fd, .resume ready])
        | .wait fd2 s2 =>
          let p := connRun gen os tmo fuel (hist ++ [ready]) fd2 s2 (pc + 1)
          (p.1, .register fd s :: .selPoll tmo evs :: .unregister fd :: .resume ready :: p.2)

/-- `wait_conn(gen, timeout)` (lines 67-97). -/
def wait_conn {RV : Type} (gen : GenC RV) (tmo : Option ℚ) (os : Nat → Bool × Bool)
    (fuel : Nat) : Outcome RV × List Ev :=
  match gen [] with
  | .done rv => (.ok rv, [])
  | .wait fd s => connRun gen os (coerceConnTimeout tmo) fuel [] fd s 0

/-! ### The raw `select.select` engine (`wait_select`) -/

/-- The triple returned by `select.select(rset, wset, xset, timeout)` for the
single descriptor: whether it appears in the read / write / exceptional result
lists.  `select` only reports a descriptor in a result list if it was passed in
the corresponding interest list; `wait_select` passes the descriptor in the
read (resp. write) list only when the mask requests it, and always in the
exceptional list. -/
def select_result (s : Nat) (o : Bool × Bool × Bool) : Bool × Bool × Bool :=
  (((s &&& WAIT_R) != 0) && o.1, ((s &&& WAIT_W) != 0) && o.2.1, o.2.2)

/-- The loop of `wait_select` (lines 219-234): classify the result triple into
a ready state (`rl → Ready.R`, `wl → Ready.W`), `continue` when the ready
state is zero, otherwise send it to the generator.  With `timeout=None` a call
that observes nothing blocks forever. -/
def selectRun {RV : Type} (gen : Gen RV) (os : Nat → Bool × Bool × Bool) (tmo : Option ℚ) :
    Nat → List Nat → Nat → Nat → Outcome RV × List Ev
  | 0, _, _, _ => (.fuelOut, [])
  | fuel + 1, hist, s, pc =>
    let t := select_result s (os pc)
    let rl := t.1
    let wl := t.2.1
    let xl := t.2.2
    if tmo.isNone && !(rl || wl || xl) then (.hang, [.rawPoll tmo rl wl xl])
    else
      let ready := (if rl then READY_R else 0) ||| (if wl then READY_W else 0)
      if ready = 0 then
        let p := selectRun gen os tmo fuel hist s (pc + 1)
        (p.1, .rawPoll tmo rl wl xl :: p.2)
      else
        match gen (hist ++ [ready]) with
        | .done rv => (.ok rv, [.rawPoll tmo rl wl xl, .resume ready])
        | .wait s2 =>
          let p := selectRun gen os tmo fuel (hist ++ [ready]) s2 (pc + 1)
          (p.1, .rawPoll tmo rl wl xl :: .resume ready :: p.2)

/-- `wait_select(gen, fileno, timeout)` (lines 210-238).  The descriptor value
itself does not appear in the modelled trace (raw `select` has no registration
state), so it is not a parameter of the model. -/
def wait_select {RV : Type} (gen : Gen RV) (tmo : Option ℚ) (os : Nat → Bool × Bool × Bool)
    (fuel : Nat) : Outcome RV × List Ev :=
  match gen [] with
  | .done rv => (.ok rv, [])
  | .wait s => selectRun gen os tmo fuel [] s 0

/-! ### The epoll engine (`wait_epoll`) -/

/-- The `poll_evmasks` dict (lines 243-250) as a partial map; `none` models a
`KeyError` on lookup. -/
def poll_evmasks : Nat → Option Nat
  | 1 => some (EPOLLONESHOT ||| EPOLLIN)
  | 2 => some (EPOLLONESHOT ||| EPOLLOUT)
  | 3 => some (EPOLLONESHOT ||| EPOLLIN ||| EPOLLOUT)
  | _ => none

/-- Oracle for one `epoll.poll` call: whether the descriptor is readable,
writable, in error, or hung up at that moment. -/
structure EpWake where
  rin : Bool
  out : Bool
  err : Bool
  hup : Bool
deriving DecidableEq

/-- Events reported by `epoll.poll` for the descriptor: the armed subset of
`EPOLLIN`/`EPOLLOUT` that is ready, plus `EPOLLERR`/`EPOLLHUP` which epoll
reports unconditionally. -/
def epoll_events (evmask : Nat) (o : EpWake) : Nat :=
  (if o.rin then evmask &&& EPOLLIN else 0) ||| (if o.out then evmask &&& EPOLLOUT else 0) |||
    (if o.err then EPOLLERR else 0) ||| (if o.hup then EPOLLHUP else 0)

/-- All event masks are below 2^32; Python's infinite-width `~b` agrees with
this 32-bit complement on such values. -/
def MASK32 : Nat := 4294967295

/-- Python `a & ~b` on event masks. -/
def andNot32 (a b : Nat) : Nat := a &&& (MASK32 ^^^ b)

/-- Lines 278-282: any reported flag other than `EPOLLOUT` implies readable,
any flag other than `EPOLLIN` implies writable. -/
def epReady (ev : Nat) : Nat :=
  (if andNot32 ev EPOLLOUT != 0 then READY_R else 0) |||
    (if andNot32 ev EPOLLIN != 0 then READY_W else 0)

/-- Lines 265-268: `None` or a negative timeout is coerced to `0`; a
non-negative timeout in seconds becomes `int(timeout * 1000.0)` milliseconds
(truncation equals the floor on non-negative values). -/
def epCoerce (tmo : Option ℚ) : Int :=
  match tmo with
  | none => 0
  | some t => if t < 0 then 0 else Int.floor (t * 1000)

/-- The loop of `wait_epoll` (lines 273-286): retry while `epoll.poll` returns
an empty list, classify the first event, send the ready state, then re-arm the
(oneshot) registration with `epoll.modify` for the new mask.  A mask missing
from `poll_evmasks` raises `KeyError` after the resume, before the modify. -/
def epollRun {RV : Type} (gen : Gen RV) (os : Nat → EpWake) (fileno : Nat) (tmo : Int) :
    Nat → List Nat → Nat → Nat → Outcome RV × List Ev
  | 0, _, _, _ => (.fuelOut, [])
  | fuel + 1, hist, evmask, pc =>
    let ev := epoll_events evmask (os pc)
    if ev = 0 then
      let p := epollRun gen os fileno tmo fuel hist evmask (pc + 1)
      (p.1, .epPoll tmo [] :: p.2)
    else
      let ready := epReady ev
      match gen (hist ++ [ready]) with
      | .done rv => (.ok rv, [.epPoll tmo [ev], .resume ready])
      | .wait s2 =>
        match poll_evmasks s2 with
        | none => (.pyError, [.epPoll tmo [ev], .resume ready])
        | some m2 =>
          let p := epollRun gen os fileno tmo fuel (hist ++ [ready]) m2 (pc + 1)
          (p.1, .epPoll tmo [ev] :: .resume ready :: .modify fileno m2 :: p.2)

/-- `wait_epoll(gen, fileno, timeout)` (lines 253-290): coerce the timeout,
look up the initial event mask, register once, then loop. -/
def wait_epoll {RV : Type} (gen : Gen RV) (fileno : Nat) (tmo : Option ℚ)
    (os : Nat → EpWake) (fuel : Nat) : Outcome RV × List Ev :=
  match gen [] with
  | .done rv => (.ok rv, [])
  | .wait s =>
    match poll_evmasks s with
    | none => (.pyError, [])
    | some m =>
      let p := epollRun gen os fileno (epCoerce tmo) fuel [] m 0
      (p.1, .register fileno m :: p.2)

/-! ### The cooperative (asyncio) engines (`wait_async`, `wait_conn_async`) -/

/-- What happens during one `await` on the wake event: either the event loop
invokes some of the registered callbacks (`r`: the read callback fires, `w`:
the write callback fires; `rLast`: the read callback runs last, which matters
only for `wait_conn_async` whose `wakeup` overwrites instead of or-ing), or an
exception (e.g. cancellation) is raised into the waiting coroutine. -/
inductive CoopWake where
  | wake (r w rLast : Bool)
  | cancel
deriving DecidableEq

/-- The `add_reader`/`add_writer` registrations performed for the current mask
(lines 132-135). -/
def addEvs (fd reader writer : Nat) : List Ev :=
  (if reader != 0 then [Ev.addReader fd] else []) ++
    (if writer != 0 then [Ev.addWriter fd] else [])

/-- The `remove_reader`/`remove_writer` calls of the `finally` block
(lines 138-142). -/
def remEvs (fd reader writer : Nat) : List Ev :=
  (if reader != 0 then [Ev.removeReader fd] else []) ++
    (if writer != 0 then [Ev.removeWriter fd] else [])

/-- The loop of `wait_async` (lines 125-143): reject an empty mask with
`InternalError` before registering anything; register the requested callbacks;
await the wake event (callbacks or-accumulate into `ready`); remove the
registered callbacks in a `finally` block on every exit of the await; send the
accumulated ready state.  If no registered callback can ever fire the await
blocks forever with the callbacks still installed. -/
def asyncRun {RV : Type} (gen : Gen RV) (os : Nat → CoopWake) (fileno : Nat) :
    Nat → List Nat → Nat → Nat → Outcome RV × List Ev
  | 0, _, _, _ => (.fuelOut, [])
  | fuel + 1, hist, s, pc =>
    let reader := s &&& WAIT_R
    let writer := s &&& WAIT_W
    if reader = 0 && writer = 0 then (.internalErr s, [])
    else
      match os pc with
      | .cancel => (.cancelled, addEvs fileno reader writer ++ remEvs fileno reader writer)
      | .wake r w _ =>
        let fr := (reader != 0) && r
        let fw := (writer != 0) && w
        if !(fr || fw) then (.hang, addEvs fileno reader writer)
        else
          let ready := (if fr then READY_R else 0) ||| (if fw then READY_W else 0)
          match gen (hist ++ [ready]) with
          | .done rv =>
            (.ok rv, addEvs fileno reader writer ++ remEvs fileno reader writer ++ [.resume ready])
          | .wait s2 =>
            let p := asyncRun gen os fileno fuel (hist ++ [ready]) s2 (pc + 1)
            (p.1,
              addEvs fileno reader writer ++ remEvs fileno reader writer ++ [.resume ready] ++ p.2)

/-- `wait_async(gen, fileno)` (lines 100-147). -/
def wait_async {RV : Type} (gen : Gen RV) (fileno : Nat) (os : Nat → CoopWake)
    (fuel : Nat) : Outcome RV × List Ev :=
  match gen [] with
  | .done rv => (.ok rv, [])
  | .wait s => asyncRun gen os fileno fuel [] s 0

/-- The loop of `wait_conn_async` (lines 179-197): like `asyncRun`, but the
descriptor comes from the generator, `wakeup` overwrites `ready` with the last
fired state, and the await is raced against the per-cycle timeout by
`wait_for`; a timeout removes the callbacks (`finally`) and is translated to
`ConnectionTimeout` (lines 199-200). -/
def connAsyncRun {RV : Type} (gen : GenC RV) (os : Nat → CoopWake) (tmo : Option ℚ) :
    Nat → List Nat → Nat → Nat → Nat → Outcome RV × List Ev
  | 0, _, _, _, _ => (.fuelOut, [])
  | fuel + 1, hist, fd, s, pc =>
    let reader := s &&& WAIT_R
    let writer := s &&& WAIT_W
    if reader = 0 && writer = 0 then (.internalErr s, [])
    else
      match os pc with
      | .cancel => (.cancelled, addEvs fd reader writer ++ remEvs fd reader writer)
      | .wake r w rLast =>
        let fr := (reader != 0) && r
        let fw := (writer != 0) && w
        if !(fr || fw) then
          if tmo.isNone then (.hang, addEvs fd reader writer)
          else (.connTimeout, addEvs fd reader writer ++ remEvs fd reader writer)
        else
          let ready :=
            if fr && fw then (if rLast then READY_R else READY_W)
            else if fr then READY_R else READY_W
          match gen (hist ++ [ready]) with
          | .done rv =>
            (.ok rv, addEvs fd reader writer ++ remEvs fd reader writer ++ [.resume ready])
          | .wait fd2 s2 =>
            let p := connAsyncRun gen os tmo fuel (hist ++ [ready]) fd2 s2 (pc + 1)
            (p.1, addEvs fd reader writer ++ remEvs fd reader writer ++ [.resume ready] ++ p.2)

/-- `wait_conn_async(gen, timeout)` (lines 150-204). -/
def wait_conn_async {RV : Type} (gen : GenC RV) (tmo : Option ℚ) (os : Nat → CoopWake)
    (fuel : Nat) : Outcome RV × List Ev :=
  match gen [] with
  | .done rv => (.ok rv, [])
  | .wait fd s => connAsyncRun gen os (coerceConnTimeout tmo) fuel [] fd s 0

/-! ### Strategy selection (lines 302-328) -/

/-- The prefix every selectable wait-function name must carry. -/
def waitPrefix : String := "wait_"

/-- Python's `str.startswith`, on the character sequences of the strings. -/
def strStartsWith (s pre : String) : Bool := pre.data.isPrefixOf s.data

def waitSelectorName : String := "wait_selector"

def waitConnName : String := "wait_conn"

def waitAsyncName : String := "wait_async"

def waitConnAsyncName : String := "wait_conn_async"

def waitSelectName : String := "wait_select"

def waitEpollName : String := "wait_epoll"

def waitCName : String := "wait_c"

def waitForName : String := "wait_for"

/-- The wait functions actually defined by the module (plus the C one when the
accelerated extension is importable). -/
def availableWaitFuncs (hasC : Bool) : List String :=
  [waitSelectorName, waitConnName, waitAsyncName, waitConnAsyncName,
    waitSelectName, waitEpollName] ++ (if hasC then [waitCName] else [])

/-- The module globals whose name starts with `wait_` at the time the
`PSYCOPG_WAIT_FUNC` check runs (line 307): the module's own wait functions and
`asyncio.wait_for`, imported at line 17. -/
def waitPrefixedGlobals (hasC : Bool) : List String :=
  availableWaitFuncs hasC ++ [waitForName]

/-- Static facts about the process the module is imported in. -/
structure Platform where
  envFunc : Option String
  hasC : Bool
  isWin32 : Bool
  defaultIsSelect : Bool
  defaultIsEpoll : Bool

/-- Module-initialization choice of the `wait` strategy (lines 305-328):
an explicit `PSYCOPG_WAIT_FUNC` override is validated (`ImportError`,
modelled as `.error ()`, when the name does not start with `wait_` or is not a
module global); otherwise the C implementation when available and not on
Windows, else `wait_select` or `wait_epoll` following the platform's default
selector, else `wait_selector`. -/
def selectWaitStrategy (p : Platform) : Except Unit String :=
  match p.envFunc with
  | some fname =>
    if !(strStartsWith fname waitPrefix) || !((waitPrefixedGlobals p.hasC).contains fname) then
      .error ()
    else .ok fname
  | none =>
    if p.hasC && !p.isWin32 then .ok waitCName
    else if p.defaultIsSelect then .ok waitSelectName
    else if p.defaultIsEpoll then .ok waitEpollName
    else .ok waitSelectorName

/-! ### Trace observations -/

/-- The sequence of ready states handed back to the operation, in order. -/
def resumeList (tr : List Ev) : List Nat :=
  tr.filterMap fun e =>
    match e with
    | .resume r => some r
    | _ => none

/-- `IntersectsReqs gen hist rs`: starting from a generator that has already
consumed `hist`, the ready states `rs` are handed over only while the
generator is suspended, and each one intersects the mask of the suspension it
answers. -/
def IntersectsReqs {RV : Type} (gen : Gen RV) : List Nat → List Nat → Prop
  | _, [] => True
  | hist, r :: rs =>
    (match gen hist with
     | .wait s => r &&& s ≠ 0
     | .done _ => False) ∧ IntersectsReqs gen (hist ++ [r]) rs

/-- `IntersectsReqs` for connection generators. -/
def IntersectsReqsC {RV : Type} (gen : GenC RV) : List Nat → List Nat → Prop
  | _, [] => True
  | hist, r :: rs =>
    (match gen hist with
     | .wait _ s => r &&& s ≠ 0
     | .done _ => False) ∧ IntersectsReqsC gen (hist ++ [r]) rs

/-- Is this event a call of the polling primitive? -/
def isPollEv : Ev → Bool
  | .selPoll _ _ => true
  | .rawPoll _ _ _ _ => true
  | .epPoll _ _ => true
  | _ => false

/-- Is this event a poll that returned an empty result set? -/
def isEmptyPollEv : Ev → Bool
  | .selPoll _ [] => true
  | .rawPoll _ rl wl xl => !rl && !wl && !xl
  | .epPoll _ [] => true
  | _ => false

/-- `RetryOK out tr`: every poll that returned an empty result set is
immediately followed by another poll (the retry), or is the last action of a
run that merely ran out of fuel or blocked — never by a resume, a raised
error, or a normal return. -/
def RetryOK {RV : Type} (out : Outcome RV) : List Ev → Prop
  | [] => True
  | [e] => isEmptyPollEv e = true → (out = .fuelOut ∨ out = .hang)
  | e :: e2 :: tr =>
    (isEmptyPollEv e = true → isPollEv e2 = true) ∧ RetryOK out (e2 :: tr)

/-- Selector registrations alive after a trace (registration order kept). -/
def regStep (acc : List (Nat × Nat)) (e : Ev) : List (Nat × Nat) :=
  match e with
  | .register fd m => acc ++ [(fd, m)]
  | .unregister fd => acc.filter fun p => p.1 != fd
  | _ => acc

/-- Selector registrations still active at the end of the trace. -/
def activeRegs (tr : List Ev) : List (Nat × Nat) :=
  tr.foldl regStep []

/-- Event-loop reader/writer callbacks alive after one event. -/
def cbStep (acc : List Nat × List Nat) (e : Ev) : List Nat × List Nat :=
  match e with
  | .addReader fd => (acc.1 ++ [fd], acc.2)
  | .addWriter fd => (acc.1, acc.2 ++ [fd])
  | .removeReader fd => (acc.1.filter fun x => x != fd, acc.2)
  | .removeWriter fd => (acc.1, acc.2.filter fun x => x != fd)
  | _ => acc

/-- Event-loop callbacks still installed at the end of the trace
(readers, writers). -/
def activeCbs (tr : List Ev) : List Nat × List Nat :=
  tr.foldl cbStep ([], [])

/-- `CbBalanced rs ws tr`: scanning `tr` with currently installed reader
callbacks `rs` and writer callbacks `ws`, every resumption of the operation
happens with no callback installed (each suspension cycle removed whatever it
added before handing control back). -/
def CbBalanced : List Nat → List Nat → List Ev → Prop
  | _, _, [] => True
  | rs, ws, e :: tr =>
    (match e with
     | .resume _ => rs = [] ∧ ws = []
     | _ => True) ∧
    CbBalanced (cbStep (rs, ws) e).1 (cbStep (rs, ws) e).2 tr

/-- Number of `register` actions in a trace. -/
def countRegisters (tr : List Ev) : Nat :=
  tr.countP fun e =>
    match e with
    | .register _ _ => true
    | _ => false

/-- `EpArm gen fd hist tr`: shape of the epoll loop trace after the initial
registration, for a generator that already consumed `hist`.  Cycles are: some
empty polls (retries), a non-empty poll, a resume, and — exactly when the
resumed operation suspends again on a mask known to `poll_evmasks` — exactly
one `modify` re-arming the same descriptor with the oneshot flag combination
for that new mask.  No other action (in particular no second `register`)
occurs. -/
def EpArm {RV : Type} (gen : Gen RV) (fd : Nat) : List Nat → List Ev → Prop
  | _, [] => True
  | hist, .epPoll _ [] :: tr => EpArm gen fd hist tr
  | hist, [.epPoll _ [_], .resume r] =>
    (match gen (hist ++ [r]) with
     | .done _ => True
     | .wait s2 => poll_evmasks s2 = none)
  | hist, .epPoll _ [_] :: .resume r :: .modify fd2 m2 :: tr =>
    (match gen (hist ++ [r]) with
     | .done _ => False
     | .wait s2 => fd2 = fd ∧ poll_evmasks s2 = some m2) ∧ EpArm gen fd (hist ++ [r]) tr
  | _, _ => False

/-- `EpShape gen fd tr`: the whole epoll trace registers the descriptor
exactly once, first, with the flags of the initial mask, and then follows the
`EpArm` cycle discipline. -/
def EpShape {RV : Type} (gen : Gen RV) (fd : Nat) (tr : List Ev) : Prop :=
  match gen [] with
  | .done _ => tr = []
  | .wait s =>
    match poll_evmasks s with
    | none => tr = []
    | some m =>
      tr.head? = some (.register fd m) ∧ countRegisters tr = 1 ∧ EpArm gen fd [] tr.tail

/-- `ConnReg gen hist tr`: shape of a `wait_conn` trace for a generator that
already consumed `hist`.  Each cycle registers the pair most recently yielded
by the generator, performs exactly one wait while it is the sole registration,
and deregisters it before any resume and before any further registration; a
cycle whose wait came back empty deregisters and stops (the timeout error),
and a cycle that blocked forever stops with the registration still active
(no exit happened). -/
def ConnReg {RV : Type} (gen : GenC RV) : List Nat → List Ev → Prop
  | _, [] => True
  | hist, [.register fd m, .selPoll _ []] => gen hist = .wait fd m
  | hist, [.register fd m, .selPoll _ [], .unregister fd2] =>
    gen hist = .wait fd m ∧ fd2 = fd
  | hist, .register fd m :: .selPoll _ [ev] :: .unregister fd2 :: .resume r :: tr =>
    gen hist = .wait fd m ∧ fd2 = fd ∧ r = ev ∧ ConnReg gen (hist ++ [r]) tr
  | _, _ => False

/-- Does the outcome raise `ConnectionTimeout`? -/
def isConnTimeout {RV : Type} : Outcome RV → Bool
  | .connTimeout => true
  | _ => false

/-- Does the outcome raise `InternalError`? -/
def isInternalErr {RV : Type} : Outcome RV → Bool
  | .internalErr _ => true
  | _ => false

/-- Connection generator for concrete runs: first suspension on descriptor 3
with mask `Wait.R`, completion with value 0 after one resume. -/
def c3g : GenC Nat := fun h => if h = [] then GenStepC.wait 3 1 else GenStepC.done 0

def c3osSel : Nat → Bool × Bool := fun _ => (true, false)

def c3osCoop : Nat → CoopWake := fun _ => CoopWake.wake true false true

/-! ### Small bit-level facts about masks below 4 -/

theorem and_mod_four (r s : Nat) (hr : r < 4) : r &&& s = r &&& (s % 4) := by
  apply Nat.eq_of_testBit_eq
  intro i
  simp only [Nat.testBit_and]
  rcases lt_or_ge i 2 with h | h
  · have h4 : (4 : Nat) = 2 ^ 2 := rfl
    have : (s % 4).testBit i = s.testBit i := by
      rw [h4, Nat.testBit_mod_two_pow]
      simp [h]
    rw [this]
  · have hri : r.testBit i = false := by
      refine Nat.testBit_lt_two_pow (lt_of_lt_of_le hr ?_)
      calc (4 : Nat) = 2 ^ 2 := rfl
        _ ≤ 2 ^ i := Nat.pow_le_pow_right (by norm_num) h
    simp [hri]

theorem ready_inter (s : Nat) (fr fw : Bool)
    (hfr : fr = true → s &&& WAIT_R ≠ 0)
    (hfw : fw = true → s &&& WAIT_W ≠ 0)
    (hor : (fr || fw) = true) :
    ((if fr then READY_R else 0) ||| (if fw then READY_W else 0)) &&& s ≠ 0 := by
  have h1 : s &&& WAIT_R = (s % 4) &&& WAIT_R := by
    rw [Nat.and_comm s WAIT_R, Nat.and_comm (s % 4) WAIT_R]
    exact and_mod_four WAIT_R s (by norm_num [WAIT_R])
  have h2 : s &&& WAIT_W = (s % 4) &&& WAIT_W := by
    rw [Nat.and_comm s WAIT_W, Nat.and_comm (s % 4) WAIT_W]
    exact and_mod_four WAIT_W s (by norm_num [WAIT_W])
  have hready : ((if fr then READY_R else 0) ||| (if fw then READY_W else 0)) &&& s
      = ((if fr then READY_R else 0) ||| (if fw then READY_W else 0)) &&& (s % 4) := by
    apply and_mod_four
    rcases fr <;> rcases fw <;> decide
  rw [hready]
  rw [h1] at hfr
  rw [h2] at hfw
  have hs4 : s % 4 < 4 := Nat.mod_lt s (by norm_num)
  set m := s % 4 with hm
  clear_value m
  interval_cases m <;> rcases fr <;> rcases fw <;>
    first
      | exact absurd hor (by decide)
      | exact absurd (hfr rfl) (by decide)
      | exact absurd (hfw rfl) (by decide)
      | decide

theorem and_and_self (m x : Nat) : (m &&& x) &&& m = m &&& x := by
  apply Nat.eq_of_testBit_eq
  intro i
  simp only [Nat.testBit_and]
  cases hm : m.testBit i <;> cases hx : x.testBit i <;> simp

/-- A selector only reports registered events: the reported set is a subset of
the registered mask. -/
theorem sel_events_and (mask : Nat) (o : Bool × Bool) :
    sel_events mask o &&& mask = sel_events mask o := by
  unfold sel_events
  rw [Nat.and_distrib_right]
  rcases o with ⟨r, w⟩
  rcases r <;> rcases w <;> simp [and_and_self]

theorem resumeList_append (a b : List Ev) :
    resumeList (a ++ b) = resumeList a ++ resumeList b :=
  List.filterMap_append a b _

@[simp] theorem resumeList_nil : resumeList [] = [] := rfl

@[simp] theorem resumeList_resume (r : Nat) (l : List Ev) :
    resumeList (.resume r :: l) = r :: resumeList l := rfl

@[simp] theorem resumeList_register (fd m : Nat) (l : List Ev) :
    resumeList (.register fd m :: l) = resumeList l := rfl

@[simp] theorem resumeList_unregister (fd : Nat) (l : List Ev) :
    resumeList (.unregister fd :: l) = resumeList l := rfl

@[simp] theorem resumeList_selPoll (t : Option ℚ) (evs : List Nat) (l : List Ev) :
    resumeList (.selPoll t evs :: l) = resumeList l := rfl

@[simp] theorem resumeList_rawPoll (t : Option ℚ) (a b c : Bool) (l : List Ev) :
    resumeList (.rawPoll t a b c :: l) = resumeList l := rfl

@[simp] theorem resumeList_epPoll (t : Int) (evs : List Nat) (l : List Ev) :
    resumeList (.epPoll t evs :: l) = resumeList l := rfl

@[simp] theorem resumeList_modify (fd m : Nat) (l : List Ev) :
    resumeList (.modify fd m :: l) = resumeList l := rfl

@[simp] theorem resumeList_addReader (fd : Nat) (l : List Ev) :
    resumeList (.addReader fd :: l) = resumeList l := rfl

@[simp] theorem resumeList_addWriter (fd : Nat) (l : List Ev) :
    resumeList (.addWriter fd :: l) = resumeList l := rfl

@[simp] theorem resumeList_removeReader (fd : Nat) (l : List Ev) :
    resumeList (.removeReader fd :: l) = resumeList l := rfl

@[simp] theorem resumeList_removeWriter (fd : Nat) (l : List Ev) :
    resumeList (.removeWriter fd :: l) = resumeList l := rfl

@[simp] theorem resumeList_addEvs (fd r w : Nat) (l : List Ev) :
    resumeList (addEvs fd r w ++ l) = resumeList l := by
  unfold addEvs
  by_cases hr : r != 0 <;> by_cases hw : w != 0 <;> simp [hr, hw]

@[simp] theorem resumeList_remEvs (fd r w : Nat) (l : List Ev) :
    resumeList (remEvs fd r w ++ l) = resumeList l := by
  unfold remEvs
  by_cases hr : r != 0 <;> by_cases hw : w != 0 <;> simp [hr, hw]

theorem selRetry_no_resume (os : Nat → Bool × Bool) (mask : Nat) (tmo : Option ℚ) :
    ∀ fuel pc, resumeList (selRetry os mask tmo fuel pc).2 = [] := by
  intro fuel
  induction fuel with
  | zero => intro pc; rfl
  | succ f ih =>
    intro pc
    simp only [selRetry]
    by_cases h : (sel_result mask (os pc)).isEmpty
    · by_cases ht : tmo.isNone
      · simp [h, ht]
      · simp [h, ht, ih]
    · simp [h]

theorem selRetry_got_ev (os : Nat → Bool × Bool) (mask : Nat) (tmo : Option ℚ) :
    ∀ fuel pc evs pc2, (selRetry os mask tmo fuel pc).1 = .got evs pc2 →
      ∃ j, evs = [sel_events mask (os j)] ∧ sel_events mask (os j) ≠ 0 := by
  intro fuel
  induction fuel with
  | zero => intro pc evs pc2 h; simp [selRetry] at h
  | succ f ih =>
    intro pc evs pc2 h
    simp only [selRetry] at h
    by_cases he : (sel_result mask (os pc)).isEmpty = true
    · by_cases ht : tmo.isNone = true
      · simp [he, ht] at h
      · simp only [he, ht, if_true, if_false, Bool.false_eq_true] at h
        exact ih (pc + 1) evs pc2 h
    · simp only [he, if_false, Bool.false_eq_true] at h
      refine ⟨pc, ?_, ?_⟩
      · have : evs = sel_result mask (os pc) := by
          cases h' : (selRetry os mask tmo f pc).1 <;> simp_all
        rw [this]
        unfold sel_result at he ⊢
        by_cases hz : sel_events mask (os pc) = 0
        · simp [hz] at he
        · simp [hz]
      · intro hz
        unfold sel_result at he
        simp [hz] at he

theorem selectorRun_inter {RV : Type} (gen : Gen RV) (os : Nat → Bool × Bool)
    (fileno : Nat) (tmo : Option ℚ) :
    ∀ fuel hist s pc, gen hist = .wait s →
      IntersectsReqs gen hist (resumeList (selectorRun gen os fileno tmo fuel hist s pc).2) := by
  intro fuel
  induction fuel with
  | zero => intro hist s pc _; simp [selectorRun, IntersectsReqs]
  | succ f ih =>
    intro hist s pc hg
    simp only [selectorRun]
    by_cases hbad : (s = 0 || decide (3 < s)) = true
    · simp [hbad, IntersectsReqs]
    · simp only [hbad, Bool.false_eq_true, if_false]
      rcases hq : (selRetry os s tmo f pc).1 with ⟨evs, pc2⟩ | _ | _
      · obtain ⟨j, hevs, hne⟩ := selRetry_got_ev os s tmo f pc evs pc2 hq
        have hready : evs.headD 0 = sel_events s (os j) := by rw [hevs]; rfl
        have hint : s &&& evs.headD 0 ≠ 0 := by
          rw [hready, Nat.and_comm, sel_events_and]
          exact hne
        have hint2 : evs.headD 0 &&& s ≠ 0 := by
          rw [hready, sel_events_and]
          exact hne
        simp only [hq, if_neg hint]
        have hnr : resumeList (selRetry os s tmo f pc).2 = [] :=
          selRetry_no_resume os s tmo f pc
        rcases hg2 : gen (hist ++ [evs.headD 0]) with s2 | rv <;> simp only [hg2]
        · simp only [resumeList_register, resumeList_append, hnr, List.nil_append,
            List.cons_append, resumeList_unregister, resumeList_resume, resumeList_nil,
            IntersectsReqs]
          refine ⟨?_, ih (hist ++ [evs.headD 0]) s2 pc2 hg2⟩
          rw [hg]
          exact hint2
        · simp only [resumeList_register, resumeList_append, hnr, List.nil_append,
            List.cons_append, resumeList_unregister, resumeList_resume, resumeList_nil,
            IntersectsReqs]
          refine ⟨?_, trivial⟩
          rw [hg]
          exact hint2
      · simp [hq, selRetry_no_resume, IntersectsReqs]
      · simp [hq, selRetry_no_resume, IntersectsReqs]

theorem sel_result_headD (mask : Nat) (o : Bool × Bool)
    (h : ¬ (sel_result mask o).isEmpty = true) :
    (sel_result mask o).headD 0 = sel_events mask o ∧ sel_events mask o ≠ 0 := by
  unfold sel_result at *
  by_cases hz : sel_events mask o = 0
  · simp [hz] at h
  · simp [hz]

theorem connRun_inter {RV : Type} (gen : GenC RV) (os : Nat → Bool × Bool) (tmo : Option ℚ) :
    ∀ fuel hist fd s pc, gen hist = .wait fd s →
      IntersectsReqsC gen hist (resumeList (connRun gen os tmo fuel hist fd s pc).2) := by
  intro fuel
  induction fuel with
  | zero => intro hist fd s pc _; simp [connRun, IntersectsReqsC]
  | succ f ih =>
    intro hist fd s pc hg
    simp only [connRun]
    by_cases hbad : (s = 0 || decide (3 < s)) = true
    · simp [hbad, IntersectsReqsC]
    · simp only [hbad, Bool.false_eq_true, if_false]
      by_cases he : (sel_result s (os pc)).isEmpty = true
      · by_cases ht : tmo.isNone <;> simp [he, ht, IntersectsReqsC]
      · obtain ⟨hhead, hne⟩ := sel_result_headD s (os pc) he
        have hint2 : (sel_result s (os pc)).headD 0 &&& s ≠ 0 := by
          rw [hhead, sel_events_and]
          exact hne
        simp only [he, Bool.false_eq_true, if_false]
        rcases hg2 : gen (hist ++ [(sel_result s (os pc)).headD 0]) with ⟨fd2, s2⟩ | rv <;>
          simp only [hg2]
        · simp only [resumeList_register, resumeList_selPoll, resumeList_unregister,
            resumeList_resume, IntersectsReqsC]
          refine ⟨?_, ih (hist ++ [(sel_result s (os pc)).headD 0]) fd2 s2 (pc + 1) hg2⟩
          rw [hg]
          exact hint2
        · simp only [resumeList_register, resumeList_selPoll, resumeList_unregister,
            resumeList_resume, resumeList_nil, IntersectsReqsC]
          refine ⟨?_, trivial⟩
          rw [hg]
          exact hint2


@[simp] theorem resumeList_addEvs_bare (fd r w : Nat) : resumeList (addEvs fd r w) = [] := by
  have h := resumeList_addEvs fd r w []
  simpa using h

@[simp] theorem resumeList_remEvs_bare (fd r w : Nat) : resumeList (remEvs fd r w) = [] := by
  have h := resumeList_remEvs fd r w []
  simpa using h

theorem selectRun_inter {RV : Type} (gen : Gen RV) (os : Nat → Bool × Bool × Bool)
    (tmo : Option ℚ) :
    ∀ fuel hist s pc, gen hist = .wait s →
      IntersectsReqs gen hist (resumeList (selectRun gen os tmo fuel hist s pc).2) := by
  intro fuel
  induction fuel with
  | zero => intro hist s pc _; simp [selectRun, IntersectsReqs]
  | succ f ih =>
    intro hist s pc hg
    have hR : (select_result s (os pc)).1 = true → s &&& WAIT_R ≠ 0 := by
      intro h
      unfold select_result at h
      simp only [Bool.and_eq_true, bne_iff_ne, ne_eq] at h
      exact h.1
    have hW : (select_result s (os pc)).2.1 = true → s &&& WAIT_W ≠ 0 := by
      intro h
      unfold select_result at h
      simp only [Bool.and_eq_true, bne_iff_ne, ne_eq] at h
      exact h.1
    simp only [selectRun]
    by_cases hh : (tmo.isNone && !((select_result s (os pc)).1 ||
        (select_result s (os pc)).2.1 || (select_result s (os pc)).2.2)) = true
    · rw [if_pos hh]
      simp [IntersectsReqs]
    · rw [if_neg hh]
      by_cases hz : ((if (select_result s (os pc)).1 = true then READY_R else 0) |||
          if (select_result s (os pc)).2.1 = true then READY_W else 0) = 0
      · rw [if_pos hz]
        simp only [resumeList_rawPoll]
        exact ih hist s (pc + 1) hg
      · rw [if_neg hz]
        have hor : ((select_result s (os pc)).1 || (select_result s (os pc)).2.1) = true := by
          rcases h1 : (select_result s (os pc)).1 <;>
            rcases h2 : (select_result s (os pc)).2.1 <;> simp [h1, h2] at hz ⊢
        have hint : ((if (select_result s (os pc)).1 = true then READY_R else 0) |||
            if (select_result s (os pc)).2.1 = true then READY_W else 0) &&& s ≠ 0 :=
          ready_inter s _ _ hR hW hor
        rcases hg2 : gen (hist ++ [(if (select_result s (os pc)).1 = true then READY_R else 0) |||
            if (select_result s (os pc)).2.1 = true then READY_W else 0]) with s2 | rv <;>
          simp only [hg2]
        · simp only [resumeList_rawPoll, resumeList_resume, IntersectsReqs]
          exact ⟨by rw [hg]; exact hint, ih _ s2 (pc + 1) hg2⟩
        · simp only [resumeList_rawPoll, resumeList_resume, resumeList_nil, IntersectsReqs]
          exact ⟨by rw [hg]; exact hint, trivial⟩

theorem epReady_inter (s evmask : Nat) (o : EpWake) (hm : poll_evmasks s = some evmask)
    (hne : epoll_events evmask o ≠ 0) :
    epReady (epoll_events evmask o) &&& s ≠ 0 := by
  unfold poll_evmasks at hm
  rcases o with ⟨rin, out, err, hup⟩
  split at hm
  · injection hm with hm
    subst hm
    revert hne
    rcases rin <;> rcases out <;> rcases err <;> rcases hup <;> decide
  · injection hm with hm
    subst hm
    revert hne
    rcases rin <;> rcases out <;> rcases err <;> rcases hup <;> decide
  · injection hm with hm
    subst hm
    revert hne
    rcases rin <;> rcases out <;> rcases err <;> rcases hup <;> decide
  · exact absurd hm (by simp)

theorem epollRun_inter {RV : Type} (gen : Gen RV) (os : Nat → EpWake) (fileno : Nat)
    (tmo : Int) :
    ∀ fuel hist evmask pc s, gen hist = .wait s → poll_evmasks s = some evmask →
      IntersectsReqs gen hist (resumeList (epollRun gen os fileno tmo fuel hist evmask pc).2) := by
  intro fuel
  induction fuel with
  | zero => intro hist evmask pc s _ _; simp [epollRun, IntersectsReqs]
  | succ f ih =>
    intro hist evmask pc s hg hm
    simp only [epollRun]
    by_cases hz : epoll_events evmask (os pc) = 0
    · simp only [hz, if_pos rfl, resumeList_epPoll]
      exact ih hist evmask (pc + 1) s hg hm
    · simp only [if_neg hz]
      have hint : epReady (epoll_events evmask (os pc)) &&& s ≠ 0 :=
        epReady_inter s evmask (os pc) hm hz
      rcases hg2 : gen (hist ++ [epReady (epoll_events evmask (os pc))]) with s2 | rv <;>
        simp only [hg2]
      · rcases hm2 : poll_evmasks s2 with _ | m2 <;> simp only [hm2]
        · simp only [resumeList_epPoll, resumeList_resume, resumeList_nil, IntersectsReqs]
          exact ⟨by rw [hg]; exact hint, trivial⟩
        · simp only [resumeList_epPoll, resumeList_resume, resumeList_modify, IntersectsReqs]
          exact ⟨by rw [hg]; exact hint, ih _ m2 (pc + 1) s2 hg2 hm2⟩
      · simp only [resumeList_epPoll, resumeList_resume, resumeList_nil, IntersectsReqs]
        exact ⟨by rw [hg]; exact hint, trivial⟩

theorem asyncRun_inter {RV : Type} (gen : Gen RV) (os : Nat → CoopWake) (fileno : Nat) :
    ∀ fuel hist s pc, gen hist = .wait s →
      IntersectsReqs gen hist (resumeList (asyncRun gen os fileno fuel hist s pc).2) := by
  intro fuel
  induction fuel with
  | zero => intro hist s pc _; simp [asyncRun, IntersectsReqs]
  | succ f ih =>
    intro hist s pc hg
    simp only [asyncRun]
    by_cases hbad : (decide (s &&& WAIT_R = 0) && decide (s &&& WAIT_W = 0)) = true
    · rw [if_pos hbad]
      simp [IntersectsReqs]
    · rw [if_neg hbad]
      rcases hwk : os pc with ⟨r, w, rLast⟩ | _
      · simp only [hwk]
        by_cases hfire : (!((s &&& WAIT_R != 0 && r) || (s &&& WAIT_W != 0 && w))) = true
        · rw [if_pos hfire]
          simp [IntersectsReqs]
        · rw [if_neg hfire]
          have hR : (s &&& WAIT_R != 0 && r) = true → s &&& WAIT_R ≠ 0 := by
            intro h
            simp only [Bool.and_eq_true, bne_iff_ne, ne_eq] at h
            exact h.1
          have hW : (s &&& WAIT_W != 0 && w) = true → s &&& WAIT_W ≠ 0 := by
            intro h
            simp only [Bool.and_eq_true, bne_iff_ne, ne_eq] at h
            exact h.1
          have hor : ((s &&& WAIT_R != 0 && r) || (s &&& WAIT_W != 0 && w)) = true := by
            rcases h1 : (s &&& WAIT_R != 0 && r) <;>
              rcases h2 : (s &&& WAIT_W != 0 && w) <;> simp [h1, h2] at hfire ⊢
          have hint : ((if (s &&& WAIT_R != 0 && r) = true then READY_R else 0) |||
              if (s &&& WAIT_W != 0 && w) = true then READY_W else 0) &&& s ≠ 0 :=
            ready_inter s _ _ hR hW hor
          rcases hg2 : gen (hist ++ [(if (s &&& WAIT_R != 0 && r) = true then READY_R else 0) |||
              if (s &&& WAIT_W != 0 && w) = true then READY_W else 0]) with s2 | rv <;>
            simp only [hg2]
          · simp only [resumeList_addEvs, resumeList_remEvs, List.append_assoc,
              List.cons_append, List.nil_append, resumeList_resume, IntersectsReqs]
            exact ⟨by rw [hg]; exact hint, ih _ s2 (pc + 1) hg2⟩
          · simp only [resumeList_addEvs, resumeList_remEvs, List.append_assoc,
              List.singleton_append, resumeList_resume, resumeList_nil, IntersectsReqs]
            exact ⟨by rw [hg]; exact hint, trivial⟩
      · simp [hwk, IntersectsReqs]

theorem one_and_ne (s : Nat) (h : s &&& WAIT_R ≠ 0) : READY_R &&& s ≠ 0 := by
  rw [Nat.and_comm]
  exact h

theorem two_and_ne (s : Nat) (h : s &&& WAIT_W ≠ 0) : READY_W &&& s ≠ 0 := by
  rw [Nat.and_comm]
  exact h

theorem connAsyncRun_inter {RV : Type} (gen : GenC RV) (os : Nat → CoopWake)
    (tmo : Option ℚ) :
    ∀ fuel hist fd s pc, gen hist = .wait fd s →
      IntersectsReqsC gen hist (resumeList (connAsyncRun gen os tmo fuel hist fd s pc).2) := by
  intro fuel
  induction fuel with
  | zero => intro hist fd s pc _; simp [connAsyncRun, IntersectsReqsC]
  | succ f ih =>
    intro hist fd s pc hg
    simp only [connAsyncRun]
    by_cases hbad : (decide (s &&& WAIT_R = 0) && decide (s &&& WAIT_W = 0)) = true
    · rw [if_pos hbad]
      simp [IntersectsReqsC]
    · rw [if_neg hbad]
      rcases hwk : os pc with ⟨r, w, rLast⟩ | _
      · simp only [hwk]
        by_cases hfire : (!((s &&& WAIT_R != 0 && r) || (s &&& WAIT_W != 0 && w))) = true
        · rw [if_pos hfire]
          by_cases ht : tmo.isNone = true <;> simp [ht, IntersectsReqsC]
        · rw [if_neg hfire]
          have hR : (s &&& WAIT_R != 0 && r) = true → s &&& WAIT_R ≠ 0 := by
            intro h
            simp only [Bool.and_eq_true, bne_iff_ne, ne_eq] at h
            exact h.1
          have hW : (s &&& WAIT_W != 0 && w) = true → s &&& WAIT_W ≠ 0 := by
            intro h
            simp only [Bool.and_eq_true, bne_iff_ne, ne_eq] at h
            exact h.1
          have hint : (if ((s &&& WAIT_R != 0 && r) && (s &&& WAIT_W != 0 && w)) = true
              then (if rLast = true then READY_R else READY_W)
              else if (s &&& WAIT_R != 0 && r) = true then READY_R else READY_W) &&& s
              ≠ 0 := by
            rcases h1 : (s &&& WAIT_R != 0 && r) <;>
              rcases h2 : (s &&& WAIT_W != 0 && w) <;>
              simp only [h1, h2, Bool.and_self, Bool.and_false, Bool.false_and,
                Bool.and_true, Bool.true_and, if_true, if_false, Bool.false_eq_true]
            · simp [h1, h2] at hfire
            · simpa using two_and_ne s (hW h2)
            · simpa using one_and_ne s (hR h1)
            · rcases rLast <;> simp only [if_true, if_false, Bool.false_eq_true]
              · exact two_and_ne s (hW h2)
              · exact one_and_ne s (hR h1)
          rcases hg2 : gen (hist ++
              [if ((s &&& WAIT_R != 0 && r) && (s &&& WAIT_W != 0 && w)) = true
               then (if rLast = true then READY_R else READY_W)
               else if (s &&& WAIT_R != 0 && r) = true then READY_R else READY_W])
            with ⟨fd2, s2⟩ | rv <;> simp only [hg2]
          · simp only [resumeList_addEvs, resumeList_remEvs, List.append_assoc,
              List.cons_append, List.nil_append, resumeList_resume, IntersectsReqsC]
            exact ⟨by rw [hg]; exact hint, ih _ fd2 s2 (pc + 1) hg2⟩
          · simp only [resumeList_addEvs, resumeList_remEvs, List.append_assoc,
              List.singleton_append, resumeList_resume, resumeList_nil, IntersectsReqsC]
            exact ⟨by rw [hg]; exact hint, trivial⟩
      · simp [hwk, IntersectsReqsC]

theorem intersects_nonzero {RV : Type} (gen : Gen RV) :
    ∀ rs hist, IntersectsReqs gen hist rs → ∀ r ∈ rs, r ≠ 0 := by
  intro rs
  induction rs with
  | nil => intro hist _ r hr; cases hr
  | cons a l ih =>
    intro hist h r hr
    rcases h with ⟨h1, h2⟩
    rcases List.mem_cons.mp hr with rfl | hr2
    · rcases hga : gen hist with s | rv
      · rw [hga] at h1
        intro h0
        rw [h0] at h1
        simp at h1
      · rw [hga] at h1
        exact h1.elim
    · exact ih (hist ++ [a]) h2 r hr2

theorem intersectsC_nonzero {RV : Type} (gen : GenC RV) :
    ∀ rs hist, IntersectsReqsC gen hist rs → ∀ r ∈ rs, r ≠ 0 := by
  intro rs
  induction rs with
  | nil => intro hist _ r hr; cases hr
  | cons a l ih =>
    intro hist h r hr
    rcases h with ⟨h1, h2⟩
    rcases List.mem_cons.mp hr with rfl | hr2
    · rcases hga : gen hist with ⟨fd, s⟩ | rv
      · rw [hga] at h1
        intro h0
        rw [h0] at h1
        simp at h1
      · rw [hga] at h1
        exact h1.elim
    · exact ih (hist ++ [a]) h2 r hr2

/-- C1: For every engine and every readiness mask, whenever the engine resumes
the operation it does so with a Ready State that intersects the operation's
most recent request: along any run of any of the six engines, each ready state
handed back to the generator has a non-empty intersection with the mask of the
suspension it answers (so the operation never observes a Ready State disjoint
from its current mask). -/
theorem c1_engines_resume_intersecting_ready :
    ∀ (RV : Type) (gen : Gen RV) (genc : GenC RV) (fileno : Nat) (tmo : Option ℚ)
      (osSel : Nat → Bool × Bool) (osRaw : Nat → Bool × Bool × Bool) (osEp : Nat → EpWake)
      (osCoop : Nat → CoopWake) (fuel : Nat),
      IntersectsReqs gen [] (resumeList (wait_selector gen fileno tmo osSel fuel).2) ∧
      IntersectsReqs gen [] (resumeList (wait_select gen tmo osRaw fuel).2) ∧
      IntersectsReqs gen [] (resumeList (wait_epoll gen fileno tmo osEp fuel).2) ∧
      IntersectsReqs gen [] (resumeList (wait_async gen fileno osCoop fuel).2) ∧
      IntersectsReqsC genc [] (resumeList (wait_conn genc tmo osSel fuel).2) ∧
      IntersectsReqsC genc [] (resumeList (wait_conn_async genc tmo osCoop fuel).2) := by
  intro RV gen genc fileno tmo osSel osRaw osEp osCoop fuel
  refine ⟨?_, ?_, ?_, ?_, ?_, ?_⟩
  · unfold wait_selector
    rcases hg : gen [] with s | rv <;> simp only [hg]
    · exact selectorRun_inter gen osSel fileno tmo fuel [] s 0 hg
    · simp [IntersectsReqs]
  · unfold wait_select
    rcases hg : gen [] with s | rv <;> simp only [hg]
    · exact selectRun_inter gen osRaw tmo fuel [] s 0 hg
    · simp [IntersectsReqs]
  · unfold wait_epoll
    rcases hg : gen [] with s | rv <;> simp only [hg]
    · rcases hm : poll_evmasks s with _ | m <;> simp only [hm]
      · simp [IntersectsReqs]
      · simp only [resumeList_register]
        exact epollRun_inter gen osEp fileno (epCoerce tmo) fuel [] m 0 s hg hm
    · simp [IntersectsReqs]
  · unfold wait_async
    rcases hg : gen [] with s | rv <;> simp only [hg]
    · exact asyncRun_inter gen osCoop fileno fuel [] s 0 hg
    · simp [IntersectsReqs]
  · unfold wait_conn
    rcases hg : genc [] with ⟨fd, s⟩ | rv <;> simp only [hg]
    · exact connRun_inter genc osSel (coerceConnTimeout tmo) fuel [] fd s 0 hg
    · simp [IntersectsReqsC]
  · unfold wait_conn_async
    rcases hg : genc [] with ⟨fd, s⟩ | rv <;> simp only [hg]
    · exact connAsyncRun_inter genc osCoop (coerceConnTimeout tmo) fuel [] fd s 0 hg
    · simp [IntersectsReqsC]

theorem retryOK_cons {RV : Type} (out : Outcome RV) (e : Ev) (l : List Ev)
    (h1 : RetryOK out l)
    (h2 : isEmptyPollEv e = true →
      (l = [] ∧ (out = .fuelOut ∨ out = .hang)) ∨ ∃ e2 t, l = e2 :: t ∧ isPollEv e2 = true) :
    RetryOK out (e :: l) := by
  cases l with
  | nil =>
    simp only [RetryOK]
    intro he
    rcases h2 he with ⟨_, h⟩ | ⟨e2, t, habs, _⟩
    · exact h
    · cases habs
  | cons e2 t =>
    refine ⟨fun he => ?_, h1⟩
    rcases h2 he with ⟨habs, _⟩ | ⟨e3, t3, heq, hp⟩
    · cases habs
    · injection heq with h4 h5
      rw [h4]
      exact hp

theorem retryOK_cons_easy {RV : Type} (out : Outcome RV) (e : Ev) (l : List Ev)
    (h1 : RetryOK out l) (h2 : isEmptyPollEv e = false) :
    RetryOK out (e :: l) :=
  retryOK_cons out e l h1 (fun he => by rw [h2] at he; cases he)

theorem retryOK_replicate_append {RV : Type} (out : Outcome RV) (tmo : Option ℚ) :
    ∀ k (rest : List Ev), RetryOK out rest →
      ((rest = [] ∧ (out = .fuelOut ∨ out = .hang)) ∨
        ∃ e t, rest = e :: t ∧ isPollEv e = true) →
      RetryOK out (List.replicate k (Ev.selPoll tmo []) ++ rest) := by
  intro k
  induction k with
  | zero => intro rest h _; simpa using h
  | succ n ih =>
    intro rest h hh
    simp only [List.replicate_succ, List.cons_append]
    refine retryOK_cons out _ _ (ih rest h hh) ?_
    intro _
    cases n with
    | zero =>
      simp only [List.replicate, List.nil_append]
      rcases hh with ⟨hr, ho⟩ | ⟨e, t, hr, hp⟩
      · exact Or.inl ⟨by rw [hr], ho⟩
      · exact Or.inr ⟨e, t, by rw [hr], hp⟩
    | succ m =>
      simp only [List.replicate_succ, List.cons_append]
      exact Or.inr ⟨_, _, rfl, rfl⟩

theorem selRetry_trace (os : Nat → Bool × Bool) (mask : Nat) (tmo : Option ℚ) :
    ∀ fuel pc, ∃ k,
      (selRetry os mask tmo fuel pc).2 =
        List.replicate k (Ev.selPoll tmo []) ++
          (match (selRetry os mask tmo fuel pc).1 with
           | .got evs _ => [Ev.selPoll tmo evs]
           | .hung => [Ev.selPoll tmo []]
           | .fuelOut => []) := by
  intro fuel
  induction fuel with
  | zero => intro pc; exact ⟨0, by simp [selRetry]⟩
  | succ f ih =>
    intro pc
    simp only [selRetry]
    by_cases he : (sel_result mask (os pc)).isEmpty = true
    · by_cases ht : tmo.isNone = true
      · refine ⟨0, ?_⟩
        rw [if_pos he, if_pos ht]
        simp
      · obtain ⟨k, hk⟩ := ih (pc + 1)
        refine ⟨k + 1, ?_⟩
        rw [if_pos he, if_neg ht]
        simp only [List.replicate_succ, List.cons_append, List.cons.injEq, true_and]
        exact hk
    · refine ⟨0, ?_⟩
      rw [if_neg he]
      simp

theorem selectorRun_retryOK {RV : Type} (gen : Gen RV) (os : Nat → Bool × Bool)
    (fileno : Nat) (tmo : Option ℚ) :
    ∀ fuel hist s pc,
      RetryOK (selectorRun gen os fileno tmo fuel hist s pc).1
        (selectorRun gen os fileno tmo fuel hist s pc).2 := by
  intro fuel
  induction fuel with
  | zero => intro hist s pc; simp [selectorRun, RetryOK]
  | succ f ih =>
    intro hist s pc
    simp only [selectorRun]
    by_cases hbad : (s = 0 || decide (3 < s)) = true
    · simp [hbad, RetryOK]
    · simp only [hbad, Bool.false_eq_true, if_false]
      obtain ⟨k, hk⟩ := selRetry_trace os s tmo f pc
      rcases hq : (selRetry os s tmo f pc).1 with ⟨evs, pc2⟩ | _ | _ <;>
        rw [hq] at hk <;> simp only [hq]
      · obtain ⟨j, hevs, hne⟩ := selRetry_got_ev os s tmo f pc evs pc2 hq
        have hnotempty : isEmptyPollEv (Ev.selPoll tmo evs) = false := by
          rw [hevs]
          rfl
        by_cases hz : s &&& evs.headD 0 = 0
        · rw [if_pos hz]
          simp only [hk, List.cons_append, List.append_assoc, List.singleton_append]
          refine retryOK_cons_easy _ _ _ ?_ rfl
          refine retryOK_replicate_append _ tmo k _ ?_ (Or.inr ⟨_, _, rfl, rfl⟩)
          refine retryOK_cons_easy _ _ _ ?_ hnotempty
          exact retryOK_cons_easy _ _ _ trivial rfl
        · rw [if_neg hz]
          rcases hg2 : gen (hist ++ [evs.headD 0]) with s2 | rv <;> simp only [hg2]
          · simp only [hk, List.cons_append, List.append_assoc, List.singleton_append,
              List.nil_append]
            refine retryOK_cons_easy _ _ _ ?_ rfl
            refine retryOK_replicate_append _ tmo k _ ?_ (Or.inr ⟨_, _, rfl, rfl⟩)
            refine retryOK_cons_easy _ _ _ ?_ hnotempty
            refine retryOK_cons_easy _ _ _ ?_ rfl
            refine retryOK_cons_easy _ _ _ ?_ rfl
            exact ih (hist ++ [evs.headD 0]) s2 pc2
          · simp only [hk, List.cons_append, List.append_assoc, List.singleton_append]
            refine retryOK_cons_easy _ _ _ ?_ rfl
            refine retryOK_replicate_append _ tmo k _ ?_ (Or.inr ⟨_, _, rfl, rfl⟩)
            refine retryOK_cons_easy _ _ _ ?_ hnotempty
            refine retryOK_cons_easy _ _ _ ?_ rfl
            exact retryOK_cons_easy _ _ _ trivial rfl
      · simp only [hk, List.cons_append]
        refine retryOK_cons_easy _ _ _ ?_ rfl
        refine retryOK_replicate_append _ tmo k _ ?_ (Or.inr ⟨_, _, rfl, rfl⟩)
        exact fun _ => Or.inr rfl
      · simp only [hk, List.append_nil]
        refine retryOK_cons_easy _ _ _ ?_ rfl
        have hrep := retryOK_replicate_append (Outcome.fuelOut : Outcome RV) tmo k [] trivial
          (Or.inl ⟨rfl, Or.inl rfl⟩)
        simpa using hrep

theorem selectRun_retryOK {RV : Type} (gen : Gen RV) (os : Nat → Bool × Bool × Bool)
    (tmo : Option ℚ) :
    ∀ fuel hist s pc,
      RetryOK (selectRun gen os tmo fuel hist s pc).1 (selectRun gen os tmo fuel hist s pc).2 ∧
      ((selectRun gen os tmo fuel hist s pc).2 = [] →
        (selectRun gen os tmo fuel hist s pc).1 = .fuelOut) ∧
      (∀ e t, (selectRun gen os tmo fuel hist s pc).2 = e :: t → isPollEv e = true) := by
  intro fuel
  induction fuel with
  | zero =>
    intro hist s pc
    refine ⟨trivial, fun _ => rfl, fun e t h => ?_⟩
    simp [selectRun] at h
  | succ f ih =>
    intro hist s pc
    simp only [selectRun]
    by_cases hh : (tmo.isNone && !((select_result s (os pc)).1 ||
        (select_result s (os pc)).2.1 || (select_result s (os pc)).2.2)) = true
    · rw [if_pos hh]
      refine ⟨fun _ => Or.inr rfl, fun habs => by simp at habs, fun e t h => ?_⟩
      simp only [List.cons.injEq] at h
      rw [← h.1]
      rfl
    · rw [if_neg hh]
      by_cases hz : ((if (select_result s (os pc)).1 = true then READY_R else 0) |||
          if (select_result s (os pc)).2.1 = true then READY_W else 0) = 0
      · rw [if_pos hz]
        obtain ⟨ihR, ihE, ihH⟩ := ih hist s (pc + 1)
        refine ⟨?_, fun habs => by simp at habs, fun e t h => ?_⟩
        · refine retryOK_cons _ _ _ ihR ?_
          intro _
          cases hp : (selectRun gen os tmo f hist s (pc + 1)).2 with
          | nil => exact Or.inl ⟨rfl, Or.inl (ihE hp)⟩
          | cons e t => exact Or.inr ⟨e, t, rfl, ihH e t hp⟩
        · simp only [List.cons.injEq] at h
          rw [← h.1]
          rfl
      · rw [if_neg hz]
        have hor : ((select_result s (os pc)).1 || (select_result s (os pc)).2.1) = true := by
          rcases h1 : (select_result s (os pc)).1 <;>
            rcases h2 : (select_result s (os pc)).2.1 <;> simp [h1, h2] at hz ⊢
        have hnotempty : isEmptyPollEv (Ev.rawPoll tmo (select_result s (os pc)).1
            (select_result s (os pc)).2.1 (select_result s (os pc)).2.2) = false := by
          rcases h1 : (select_result s (os pc)).1 <;>
            rcases h2 : (select_result s (os pc)).2.1 <;> rw [h1, h2] at hor
          · simp at hor
          · rfl
          · rfl
          · rfl
        rcases hg2 : gen (hist ++ [(if (select_result s (os pc)).1 = true then READY_R else 0) |||
            if (select_result s (os pc)).2.1 = true then READY_W else 0]) with s2 | rv <;>
          simp only [hg2]
        · obtain ⟨ihR, _, _⟩ := ih (hist ++ [(if (select_result s (os pc)).1 = true
              then READY_R else 0) |||
              if (select_result s (os pc)).2.1 = true then READY_W else 0]) s2 (pc + 1)
          refine ⟨?_, fun habs => by simp at habs, fun e t h => ?_⟩
          · refine retryOK_cons_easy _ _ _ ?_ hnotempty
            exact retryOK_cons_easy _ _ _ ihR rfl
          · simp only [List.cons.injEq] at h
            rw [← h.1]
            rfl
        · refine ⟨?_, fun habs => by simp at habs, fun e t h => ?_⟩
          · refine retryOK_cons_easy _ _ _ ?_ hnotempty
            exact retryOK_cons_easy _ _ _ trivial rfl
          · simp only [List.cons.injEq] at h
            rw [← h.1]
            rfl

theorem epollRun_retryOK {RV : Type} (gen : Gen RV) (os : Nat → EpWake) (fileno : Nat)
    (tmo : Int) :
    ∀ fuel hist evmask pc,
      RetryOK (epollRun gen os fileno tmo fuel hist evmask pc).1
        (epollRun gen os fileno tmo fuel hist evmask pc).2 ∧
      ((epollRun gen os fileno tmo fuel hist evmask pc).2 = [] →
        (epollRun gen os fileno tmo fuel hist evmask pc).1 = .fuelOut) ∧
      (∀ e t, (epollRun gen os fileno tmo fuel hist evmask pc).2 = e :: t →
        isPollEv e = true) := by
  intro fuel
  induction fuel with
  | zero =>
    intro hist evmask pc
    refine ⟨trivial, fun _ => rfl, fun e t h => ?_⟩
    simp [epollRun] at h
  | succ f ih =>
    intro hist evmask pc
    simp only [epollRun]
    by_cases hz : epoll_events evmask (os pc) = 0
    · rw [if_pos hz]
      obtain ⟨ihR, ihE, ihH⟩ := ih hist evmask (pc + 1)
      refine ⟨?_, fun habs => by simp at habs, fun e t h => ?_⟩
      · refine retryOK_cons _ _ _ ihR ?_
        intro _
        cases hp : (epollRun gen os fileno tmo f hist evmask (pc + 1)).2 with
        | nil => exact Or.inl ⟨rfl, Or.inl (ihE hp)⟩
        | cons e t => exact Or.inr ⟨e, t, rfl, ihH e t hp⟩
      · simp only [List.cons.injEq] at h
        rw [← h.1]
        rfl
    · rw [if_neg hz]
      rcases hg2 : gen (hist ++ [epReady (epoll_events evmask (os pc))]) with s2 | rv <;>
        simp only [hg2]
      · rcases hm2 : poll_evmasks s2 with _ | m2 <;> simp only [hm2]
        · refine ⟨?_, fun habs => by simp at habs, fun e t h => ?_⟩
          · refine retryOK_cons_easy _ _ _ ?_ rfl
            exact retryOK_cons_easy _ _ _ trivial rfl
          · simp only [List.cons.injEq] at h
            rw [← h.1]
            rfl
        · obtain ⟨ihR, _, _⟩ := ih (hist ++ [epReady (epoll_events evmask (os pc))]) m2 (pc + 1)
          refine ⟨?_, fun habs => by simp at habs, fun e t h => ?_⟩
          · refine retryOK_cons_easy _ _ _ ?_ rfl
            refine retryOK_cons_easy _ _ _ ?_ rfl
            exact retryOK_cons_easy _ _ _ ihR rfl
          · simp only [List.cons.injEq] at h
            rw [← h.1]
            rfl
      · refine ⟨?_, fun habs => by simp at habs, fun e t h => ?_⟩
        · refine retryOK_cons_easy _ _ _ ?_ rfl
          exact retryOK_cons_easy _ _ _ trivial rfl
        · simp only [List.cons.injEq] at h
          rw [← h.1]
          rfl

theorem all_nonzero_of_inter {RV : Type} (gen : Gen RV) (tr : List Ev)
    (h : IntersectsReqs gen [] (resumeList tr)) :
    ((resumeList tr).all fun r => r != 0) = true := by
  rw [List.all_eq_true]
  intro r hr
  have hne := intersects_nonzero gen (resumeList tr) [] h r hr
  simpa using hne

theorem all_nonzero_of_interC {RV : Type} (gen : GenC RV) (tr : List Ev)
    (h : IntersectsReqsC gen [] (resumeList tr)) :
    ((resumeList tr).all fun r => r != 0) = true := by
  rw [List.all_eq_true]
  intro r hr
  have hne := intersectsC_nonzero gen (resumeList tr) [] h r hr
  simpa using hne

/-- C2: For the blocking engines (`wait_selector`, `wait_select`, `wait_epoll`)
and every sequence of OS poll results, a poll returning an empty result set is
always followed by another poll (the internal retry) or ends a run that is
merely out of fuel or blocked — never by a resume, an error, or a return
(`RetryOK`); and no engine (all six included) ever resumes the operation with
an all-zero Ready State. -/
theorem c2_empty_polls_retried_no_zero_resume :
    ∀ (RV : Type) (gen : Gen RV) (genc : GenC RV) (fileno : Nat) (tmo : Option ℚ)
      (osSel : Nat → Bool × Bool) (osRaw : Nat → Bool × Bool × Bool) (osEp : Nat → EpWake)
      (osCoop : Nat → CoopWake) (fuel : Nat),
      RetryOK (wait_selector gen fileno tmo osSel fuel).1
        (wait_selector gen fileno tmo osSel fuel).2 ∧
      RetryOK (wait_select gen tmo osRaw fuel).1 (wait_select gen tmo osRaw fuel).2 ∧
      RetryOK (wait_epoll gen fileno tmo osEp fuel).1 (wait_epoll gen fileno tmo osEp fuel).2 ∧
      ((resumeList (wait_selector gen fileno tmo osSel fuel).2).all fun r => r != 0) = true ∧
      ((resumeList (wait_select gen tmo osRaw fuel).2).all fun r => r != 0) = true ∧
      ((resumeList (wait_epoll gen fileno tmo osEp fuel).2).all fun r => r != 0) = true ∧
      ((resumeList (wait_async gen fileno osCoop fuel).2).all fun r => r != 0) = true ∧
      ((resumeList (wait_conn genc tmo osSel fuel).2).all fun r => r != 0) = true ∧
      ((resumeList (wait_conn_async genc tmo osCoop fuel).2).all fun r => r != 0) = true := by
  intro RV gen genc fileno tmo osSel osRaw osEp osCoop fuel
  refine ⟨?_, ?_, ?_, ?_, ?_, ?_, ?_, ?_, ?_⟩
  · unfold wait_selector
    rcases hg : gen [] with s | rv <;> simp only [hg]
    · exact selectorRun_retryOK gen osSel fileno tmo fuel [] s 0
    · trivial
  · unfold wait_select
    rcases hg : gen [] with s | rv <;> simp only [hg]
    · exact (selectRun_retryOK gen osRaw tmo fuel [] s 0).1
    · trivial
  · unfold wait_epoll
    rcases hg : gen [] with s | rv <;> simp only [hg]
    · rcases hm : poll_evmasks s with _ | m <;> simp only [hm]
      · trivial
      · refine retryOK_cons_easy _ _ _ ?_ rfl
        exact (epollRun_retryOK gen osEp fileno (epCoerce tmo) fuel [] m 0).1
    · trivial
  · apply all_nonzero_of_inter
    unfold wait_selector
    rcases hg : gen [] with s | rv <;> simp only [hg]
    · exact selectorRun_inter gen osSel fileno tmo fuel [] s 0 hg
    · simp [IntersectsReqs]
  · apply all_nonzero_of_inter
    unfold wait_select
    rcases hg : gen [] with s | rv <;> simp only [hg]
    · exact selectRun_inter gen osRaw tmo fuel [] s 0 hg
    · simp [IntersectsReqs]
  · apply all_nonzero_of_inter
    unfold wait_epoll
    rcases hg : gen [] with s | rv <;> simp only [hg]
    · rcases hm : poll_evmasks s with _ | m <;> simp only [hm]
      · simp [IntersectsReqs]
      · simp only [resumeList_register]
        exact epollRun_inter gen osEp fileno (epCoerce tmo) fuel [] m 0 s hg hm
    · simp [IntersectsReqs]
  · apply all_nonzero_of_inter
    unfold wait_async
    rcases hg : gen [] with s | rv <;> simp only [hg]
    · exact asyncRun_inter gen osCoop fileno fuel [] s 0 hg
    · simp [IntersectsReqs]
  · apply all_nonzero_of_interC
    unfold wait_conn
    rcases hg : genc [] with ⟨fd, s⟩ | rv <;> simp only [hg]
    · exact connRun_inter genc osSel (coerceConnTimeout tmo) fuel [] fd s 0 hg
    · simp [IntersectsReqsC]
  · apply all_nonzero_of_interC
    unfold wait_conn_async
    rcases hg : genc [] with ⟨fd, s⟩ | rv <;> simp only [hg]
    · exact connAsyncRun_inter genc osCoop (coerceConnTimeout tmo) fuel [] fd s 0 hg
    · simp [IntersectsReqsC]

theorem connRun_none_no_timeout {RV : Type} (gen : GenC RV) (os : Nat → Bool × Bool) :
    ∀ fuel hist fd s pc, isConnTimeout (connRun gen os none fuel hist fd s pc).1 = false := by
  intro fuel
  induction fuel with
  | zero => intro hist fd s pc; rfl
  | succ f ih =>
    intro hist fd s pc
    simp only [connRun]
    by_cases hbad : (s = 0 || decide (3 < s)) = true
    · simp [hbad, isConnTimeout]
    · simp only [hbad, Bool.false_eq_true, if_false]
      by_cases he : (sel_result s (os pc)).isEmpty = true
      · simp [he, isConnTimeout]
      · simp only [he, Bool.false_eq_true, if_false]
        rcases hg2 : gen (hist ++ [(sel_result s (os pc)).headD 0]) with ⟨fd2, s2⟩ | rv <;>
          simp only [hg2]
        · exact ih (hist ++ [(sel_result s (os pc)).headD 0]) fd2 s2 (pc + 1)
        · rfl

theorem connAsyncRun_none_no_timeout {RV : Type} (gen : GenC RV) (os : Nat → CoopWake) :
    ∀ fuel hist fd s pc, isConnTimeout (connAsyncRun gen os none fuel hist fd s pc).1 = false := by
  intro fuel
  induction fuel with
  | zero => intro hist fd s pc; rfl
  | succ f ih =>
    intro hist fd s pc
    simp only [connAsyncRun]
    by_cases hbad : (decide (s &&& WAIT_R = 0) && decide (s &&& WAIT_W = 0)) = true
    · rw [if_pos hbad]
      rfl
    · rw [if_neg hbad]
      rcases hwk : os pc with ⟨r, w, rLast⟩ | _
      · simp only [hwk]
        by_cases hfire : (!((s &&& WAIT_R != 0 && r) || (s &&& WAIT_W != 0 && w))) = true
        · rw [if_pos hfire]
          simp [isConnTimeout]
        · rw [if_neg hfire]
          rcases hg2 : gen (hist ++
              [if ((s &&& WAIT_R != 0 && r) && (s &&& WAIT_W != 0 && w)) = true
               then (if rLast = true then READY_R else READY_W)
               else if (s &&& WAIT_R != 0 && r) = true then READY_R else READY_W])
            with ⟨fd2, s2⟩ | rv <;> simp only [hg2]
          · exact ih _ fd2 s2 (pc + 1)
          · rfl
      · simp [hwk, isConnTimeout]

/-- C10: In both connection-phase engines a caller-supplied timeout of exactly
`0` is coerced to `None` and means wait indefinitely: with timeout `0` or
`None` the run can never end in `ConnectionTimeout`, whatever the operation
and the OS do. -/
theorem c10_zero_timeout_means_wait_forever :
    ∀ (RV : Type) (genc : GenC RV) (osSel : Nat → Bool × Bool) (osCoop : Nat → CoopWake)
      (fuel : Nat),
      isConnTimeout (wait_conn genc none osSel fuel).1 = false ∧
      isConnTimeout (wait_conn genc (some (0 : ℚ)) osSel fuel).1 = false ∧
      isConnTimeout (wait_conn_async genc none osCoop fuel).1 = false ∧
      isConnTimeout (wait_conn_async genc (some (0 : ℚ)) osCoop fuel).1 = false := by
  intro RV genc osSel osCoop fuel
  have hc0 : coerceConnTimeout (some 0) = none := by simp [coerceConnTimeout]
  have hcn : coerceConnTimeout none = none := rfl
  refine ⟨?_, ?_, ?_, ?_⟩ <;> [skip; skip; skip; skip] <;>
    first
      | (unfold wait_conn
         rcases hg : genc [] with ⟨fd, s⟩ | rv <;> simp only [hg, hc0, hcn]
         · exact connRun_none_no_timeout genc osSel fuel [] fd s 0
         · rfl)
      | (unfold wait_conn_async
         rcases hg : genc [] with ⟨fd, s⟩ | rv <;> simp only [hg, hc0, hcn]
         · exact connAsyncRun_none_no_timeout genc osCoop fuel [] fd s 0
         · rfl)

/-- C4 counterexample: the claim says *every* engine raises `InternalError` on
a mask with neither bit set, before performing any wait.  `wait_select`, run
on a generator that immediately requests mask `0` (with the OS reporting the
descriptor exceptional and fuel 3), performs three `select.select` calls and
raises nothing: it never produces `InternalError` (it just loops). -/
theorem c4_counterexample_wait_select_no_internal_error :
    (wait_select (fun _ => GenStep.wait 0 : Gen Nat) (some 1)
        (fun _ => (true, true, true)) 3).1 = Outcome.fuelOut ∧
    ((wait_select (fun _ => GenStep.wait 0 : Gen Nat) (some 1)
        (fun _ => (true, true, true)) 3).2.any isPollEv) = true ∧
    isInternalErr (wait_select (fun _ => GenStep.wait 0 : Gen Nat) (some 1)
        (fun _ => (true, true, true)) 3).1 = false := by
  refine ⟨?_, ?_, ?_⟩ <;> rfl

/-- C4 (amended): the *cooperative* engines (`wait_async`, `wait_conn_async`)
raise `InternalError` immediately when the operation suspends on a mask with
neither the Readable nor the Writable bit set — before registering any
callback and before any wait — and the error propagates to the caller (the
run ends with an empty trace).  The blocking engines perform no such check. -/
theorem c4_amended_coop_empty_mask_internal_error :
    ∀ (RV : Type) (gen : Gen RV) (genc : GenC RV) (fileno : Nat) (tmo : Option ℚ)
      (osCoop : Nat → CoopWake) (fuel s fd sc : Nat),
      gen [] = .wait s → s &&& WAIT_R = 0 → s &&& WAIT_W = 0 →
      genc [] = .wait fd sc → sc &&& WAIT_R = 0 → sc &&& WAIT_W = 0 →
      1 ≤ fuel →
      wait_async gen fileno osCoop fuel = (.internalErr s, []) ∧
      wait_conn_async genc tmo osCoop fuel = (.internalErr sc, []) := by
  intro RV gen genc fileno tmo osCoop fuel s fd sc hg h1 h2 hgc h3 h4 hfuel
  rcases fuel with _ | f
  · exact absurd hfuel (by norm_num)
  · constructor
    · unfold wait_async
      rw [hg]
      simp only [asyncRun]
      rw [if_pos]
      simp [h1, h2]
    · unfold wait_conn_async
      rw [hgc]
      simp only [connAsyncRun]
      rw [if_pos]
      simp [h3, h4]

/-- Witness for the amended C4 at a concrete input: a generator immediately
requesting mask `0` makes both cooperative engines fail with `InternalError`
without any trace event. -/
theorem c4_amended_witness :
    (fun _ => GenStep.wait 0 : Gen Nat) [] = GenStep.wait 0 ∧
    (0 : Nat) &&& WAIT_R = 0 ∧ (0 : Nat) &&& WAIT_W = 0 ∧ (1 : Nat) ≤ 3 ∧
    wait_async (fun _ => GenStep.wait 0 : Gen Nat) 7 (fun _ => CoopWake.cancel) 3 =
      (Outcome.internalErr 0, []) ∧
    wait_conn_async (fun _ => GenStepC.wait 5 0 : GenC Nat) (some 1)
      (fun _ => CoopWake.cancel) 3 = (Outcome.internalErr 0, []) := by
  have h := c4_amended_coop_empty_mask_internal_error Nat
    (fun _ => GenStep.wait 0) (fun _ => GenStepC.wait 5 0) 7 (some 1)
    (fun _ => CoopWake.cancel) 3 0 5 0 rfl rfl rfl rfl rfl rfl (by norm_num)
  exact ⟨rfl, rfl, rfl, by norm_num, h.1, h.2⟩

theorem cbStep_fold_chunk (fd r w : Nat) :
    List.foldl cbStep ([], []) (addEvs fd r w ++ remEvs fd r w) = ([], []) := by
  by_cases hr : (r != 0) = true <;> by_cases hw : (w != 0) = true <;>
    simp [addEvs, remEvs, hr, hw, cbStep]

theorem cbStep_fold_chunk_resume (fd r w x : Nat) (rest : List Ev) :
    List.foldl cbStep ([], []) (addEvs fd r w ++ (remEvs fd r w ++ (Ev.resume x :: rest))) =
      List.foldl cbStep ([], []) rest := by
  rw [← List.append_assoc, List.foldl_append, cbStep_fold_chunk]
  rfl

theorem cbBalanced_chunk (fd r w x : Nat) (rest : List Ev) (h : CbBalanced [] [] rest) :
    CbBalanced [] [] (addEvs fd r w ++ (remEvs fd r w ++ (Ev.resume x :: rest))) := by
  by_cases hr : (r != 0) = true <;> by_cases hw : (w != 0) = true <;>
    simp [addEvs, remEvs, hr, hw, CbBalanced, cbStep, h]

theorem cbBalanced_chunk_noresume (fd r w : Nat) :
    CbBalanced [] [] (addEvs fd r w ++ remEvs fd r w) := by
  by_cases hr : (r != 0) = true <;> by_cases hw : (w != 0) = true <;>
    simp [addEvs, remEvs, hr, hw, CbBalanced, cbStep]

theorem cbBalanced_adds (fd r w : Nat) :
    CbBalanced [] [] (addEvs fd r w) := by
  by_cases hr : (r != 0) = true <;> by_cases hw : (w != 0) = true <;>
    simp [addEvs, hr, hw, CbBalanced, cbStep]

theorem asyncRun_cbs {RV : Type} (gen : Gen RV) (os : Nat → CoopWake) (fileno : Nat) :
    ∀ fuel hist s pc,
      ((asyncRun gen os fileno fuel hist s pc).1 ≠ Outcome.hang →
        activeCbs (asyncRun gen os fileno fuel hist s pc).2 = ([], [])) ∧
      CbBalanced [] [] (asyncRun gen os fileno fuel hist s pc).2 := by
  intro fuel
  induction fuel with
  | zero => intro hist s pc; exact ⟨fun _ => rfl, trivial⟩
  | succ f ih =>
    intro hist s pc
    simp only [asyncRun]
    by_cases hbad : (decide (s &&& WAIT_R = 0) && decide (s &&& WAIT_W = 0)) = true
    · rw [if_pos hbad]
      exact ⟨fun _ => rfl, trivial⟩
    · rw [if_neg hbad]
      rcases hwk : os pc with ⟨r, w, rLast⟩ | _
      · simp only [hwk]
        by_cases hfire : (!((s &&& WAIT_R != 0 && r) || (s &&& WAIT_W != 0 && w))) = true
        · rw [if_pos hfire]
          exact ⟨fun habs => absurd rfl habs, cbBalanced_adds fileno _ _⟩
        · rw [if_neg hfire]
          rcases hg2 : gen (hist ++ [(if (s &&& WAIT_R != 0 && r) = true then READY_R else 0) |||
              if (s &&& WAIT_W != 0 && w) = true then READY_W else 0]) with s2 | rv <;>
            simp only [hg2]
          · obtain ⟨ih1, ih2⟩ := ih (hist ++ [(if (s &&& WAIT_R != 0 && r) = true
                then READY_R else 0) |||
                if (s &&& WAIT_W != 0 && w) = true then READY_W else 0]) s2 (pc + 1)
            constructor
            · intro hno
              simp only [List.append_assoc, List.singleton_append]
              unfold activeCbs at ih1 ⊢
              rw [cbStep_fold_chunk_resume]
              exact ih1 hno
            · simp only [List.append_assoc, List.singleton_append]
              exact cbBalanced_chunk fileno _ _ _ _ ih2
          · constructor
            · intro _
              simp only [List.append_assoc, List.singleton_append]
              unfold activeCbs
              rw [cbStep_fold_chunk_resume]
              rfl
            · simp only [List.append_assoc, List.singleton_append]
              exact cbBalanced_chunk fileno _ _ _ _ trivial
      · simp only [hwk]
        constructor
        · intro _
          unfold activeCbs
          exact cbStep_fold_chunk fileno _ _
        · exact cbBalanced_chunk_noresume fileno _ _

theorem connAsyncRun_cbs {RV : Type} (gen : GenC RV) (os : Nat → CoopWake) (tmo : Option ℚ) :
    ∀ fuel hist fd s pc,
      ((connAsyncRun gen os tmo fuel hist fd s pc).1 ≠ Outcome.hang →
        activeCbs (connAsyncRun gen os tmo fuel hist fd s pc).2 = ([], [])) ∧
      CbBalanced [] [] (connAsyncRun gen os tmo fuel hist fd s pc).2 := by
  intro fuel
  induction fuel with
  | zero => intro hist fd s pc; exact ⟨fun _ => rfl, trivial⟩
  | succ f ih =>
    intro hist fd s pc
    simp only [connAsyncRun]
    by_cases hbad : (decide (s &&& WAIT_R = 0) && decide (s &&& WAIT_W = 0)) = true
    · rw [if_pos hbad]
      exact ⟨fun _ => rfl, trivial⟩
    · rw [if_neg hbad]
      rcases hwk : os pc with ⟨r, w, rLast⟩ | _
      · simp only [hwk]
        by_cases hfire : (!((s &&& WAIT_R != 0 && r) || (s &&& WAIT_W != 0 && w))) = true
        · rw [if_pos hfire]
          by_cases ht : tmo.isNone = true
          · rw [if_pos ht]
            exact ⟨fun habs => absurd rfl habs, cbBalanced_adds fd _ _⟩
          · rw [if_neg ht]
            constructor
            · intro _
              unfold activeCbs
              exact cbStep_fold_chunk fd _ _
            · exact cbBalanced_chunk_noresume fd _ _
        · rw [if_neg hfire]
          rcases hg2 : gen (hist ++
              [if ((s &&& WAIT_R != 0 && r) && (s &&& WAIT_W != 0 && w)) = true
               then (if rLast = true then READY_R else READY_W)
               else if (s &&& WAIT_R != 0 && r) = true then READY_R else READY_W])
            with ⟨fd2, s2⟩ | rv <;> simp only [hg2]
          · obtain ⟨ih1, ih2⟩ := ih (hist ++
              [if ((s &&& WAIT_R != 0 && r) && (s &&& WAIT_W != 0 && w)) = true
               then (if rLast = true then READY_R else READY_W)
               else if (s &&& WAIT_R != 0 && r) = true then READY_R else READY_W])
              fd2 s2 (pc + 1)
            constructor
            · intro hno
              simp only [List.append_assoc, List.singleton_append]
              unfold activeCbs at ih1 ⊢
              rw [cbStep_fold_chunk_resume]
              exact ih1 hno
            · simp only [List.append_assoc, List.singleton_append]
              exact cbBalanced_chunk fd _ _ _ _ ih2
          · constructor
            · intro _
              simp only [List.append_assoc, List.singleton_append]
              unfold activeCbs
              rw [cbStep_fold_chunk_resume]
              rfl
            · simp only [List.append_assoc, List.singleton_append]
              exact cbBalanced_chunk fd _ _ _ _ trivial
      · simp only [hwk]
        constructor
        · intro _
          unfold activeCbs
          exact cbStep_fold_chunk fd _ _
        · exact cbBalanced_chunk_noresume fd _ _

/-- C5: The cooperative engines remove every callback they registered on every
exit path: unless the run is still blocked inside the await (`hang`, which is
not an exit), the trace of a `wait_async` / `wait_conn_async` run ends with no
reader or writer callback installed — this covers normal completion, the
per-cycle timeout, `InternalError`, and an exception raised into the await —
and moreover every resumption of the operation happens with no callback
installed, so no event-loop registration outlives its suspension cycle. -/
theorem c5_coop_callbacks_removed_every_exit :
    ∀ (RV : Type) (gen : Gen RV) (genc : GenC RV) (fileno : Nat) (tmo : Option ℚ)
      (osCoop : Nat → CoopWake) (fuel : Nat),
      ((wait_async gen fileno osCoop fuel).1 = Outcome.hang ∨
        activeCbs (wait_async gen fileno osCoop fuel).2 = ([], [])) ∧
      CbBalanced [] [] (wait_async gen fileno osCoop fuel).2 ∧
      ((wait_conn_async genc tmo osCoop fuel).1 = Outcome.hang ∨
        activeCbs (wait_conn_async genc tmo osCoop fuel).2 = ([], [])) ∧
      CbBalanced [] [] (wait_conn_async genc tmo osCoop fuel).2 := by
  intro RV gen genc fileno tmo osCoop fuel
  refine ⟨?_, ?_, ?_, ?_⟩
  · unfold wait_async
    rcases hg : gen [] with s | rv <;> simp only [hg]
    · by_cases hh : (asyncRun gen osCoop fileno fuel [] s 0).1 = Outcome.hang
      · exact Or.inl hh
      · exact Or.inr ((asyncRun_cbs gen osCoop fileno fuel [] s 0).1 hh)
    · exact Or.inr rfl
  · unfold wait_async
    rcases hg : gen [] with s | rv <;> simp only [hg]
    · exact (asyncRun_cbs gen osCoop fileno fuel [] s 0).2
    · trivial
  · unfold wait_conn_async
    rcases hg : genc [] with ⟨fd, s⟩ | rv <;> simp only [hg]
    · by_cases hh : (connAsyncRun genc osCoop (coerceConnTimeout tmo) fuel [] fd s 0).1 =
          Outcome.hang
      · exact Or.inl hh
      · exact Or.inr
          ((connAsyncRun_cbs genc osCoop (coerceConnTimeout tmo) fuel [] fd s 0).1 hh)
    · exact Or.inr rfl
  · unfold wait_conn_async
    rcases hg : genc [] with ⟨fd, s⟩ | rv <;> simp only [hg]
    · exact (connAsyncRun_cbs genc osCoop (coerceConnTimeout tmo) fuel [] fd s 0).2
    · trivial

theorem epollRun_poll_tmo {RV : Type} (gen : Gen RV) (os : Nat → EpWake) (fileno : Nat)
    (tmo : Int) :
    ∀ fuel hist evmask pc,
      ((epollRun gen os fileno tmo fuel hist evmask pc).2.all fun e =>
        match e with
        | Ev.epPoll tm _ => tm == tmo
        | _ => true) = true := by
  intro fuel
  induction fuel with
  | zero => intro hist evmask pc; rfl
  | succ f ih =>
    intro hist evmask pc
    simp only [epollRun]
    by_cases hz : epoll_events evmask (os pc) = 0
    · rw [if_pos hz]
      simp [ih]
    · rw [if_neg hz]
      rcases hg2 : gen (hist ++ [epReady (epoll_events evmask (os pc))]) with s2 | rv <;>
        simp only [hg2]
      · rcases hm2 : poll_evmasks s2 with _ | m2 <;> simp only [hm2]
        · simp
        · simp [ih]
      · simp

/-- C7: In the epoll engine, the timeout is coerced once before the loop: an
input of `None` (and any negative input) becomes `0`, and a non-negative
input `t` seconds becomes `int(t * 1000)` milliseconds (truncation = floor on
non-negative rationals); every `epoll.poll` call of every run is then made
with exactly that coerced value. -/
theorem c7_epoll_timeout_coercion :
    epCoerce none = 0 ∧
    (∀ t : ℚ, epCoerce (some t) = if t < 0 then 0 else Int.floor (t * 1000)) ∧
    (∀ (RV : Type) (gen : Gen RV) (fileno : Nat) (tmo : Option ℚ) (os : Nat → EpWake)
      (fuel : Nat),
      ((wait_epoll gen fileno tmo os fuel).2.all fun e =>
        match e with
        | Ev.epPoll tm _ => tm == epCoerce tmo
        | _ => true) = true) := by
  refine ⟨rfl, fun t => rfl, ?_⟩
  intro RV gen fileno tmo os fuel
  unfold wait_epoll
  rcases hg : gen [] with s | rv <;> simp only [hg]
  · rcases hm : poll_evmasks s with _ | m <;> simp only [hm]
    · rfl
    · simp [epollRun_poll_tmo]
  · rfl

@[simp] theorem isEmptyPollEv_register (fd m : Nat) :
    isEmptyPollEv (.register fd m) = false := rfl

@[simp] theorem isEmptyPollEv_unregister (fd : Nat) :
    isEmptyPollEv (.unregister fd) = false := rfl

@[simp] theorem isEmptyPollEv_resume (r : Nat) : isEmptyPollEv (.resume r) = false := rfl

@[simp] theorem isEmptyPollEv_modify (fd m : Nat) : isEmptyPollEv (.modify fd m) = false := rfl

@[simp] theorem isEmptyPollEv_addReader (fd : Nat) :
    isEmptyPollEv (.addReader fd) = false := rfl

@[simp] theorem isEmptyPollEv_addWriter (fd : Nat) :
    isEmptyPollEv (.addWriter fd) = false := rfl

@[simp] theorem isEmptyPollEv_removeReader (fd : Nat) :
    isEmptyPollEv (.removeReader fd) = false := rfl

@[simp] theorem isEmptyPollEv_removeWriter (fd : Nat) :
    isEmptyPollEv (.removeWriter fd) = false := rfl

@[simp] theorem isEmptyPollEv_selPoll_nil (t : Option ℚ) :
    isEmptyPollEv (.selPoll t []) = true := rfl

@[simp] theorem isEmptyPollEv_selPoll_cons (t : Option ℚ) (x : Nat) (xs : List Nat) :
    isEmptyPollEv (.selPoll t (x :: xs)) = false := rfl

@[simp] theorem isEmptyPollEv_epPoll_nil (t : Int) : isEmptyPollEv (.epPoll t []) = true := rfl

@[simp] theorem isEmptyPollEv_epPoll_cons (t : Int) (x : Nat) (xs : List Nat) :
    isEmptyPollEv (.epPoll t (x :: xs)) = false := rfl

theorem connRun_timeout_spec {RV : Type} (gen : GenC RV) (os : Nat → Bool × Bool) (T : ℚ) :
    ∀ fuel hist fd s pc,
      (((connRun gen os (some T) fuel hist fd s pc).1 = Outcome.connTimeout) ↔
        ((connRun gen os (some T) fuel hist fd s pc).2.any isEmptyPollEv = true)) ∧
      activeRegs (connRun gen os (some T) fuel hist fd s pc).2 = [] ∧
      (((connRun gen os (some T) fuel hist fd s pc).2.all fun e =>
        match e with
        | Ev.selPoll tm _ => tm == some T
        | _ => true) = true) := by
  intro fuel
  induction fuel with
  | zero =>
    intro hist fd s pc
    refine ⟨?_, rfl, rfl⟩
    constructor
    · intro h
      exact absurd h (by simp [connRun])
    · intro h
      exact absurd h (by simp [connRun])
  | succ f ih =>
    intro hist fd s pc
    simp only [connRun]
    by_cases hbad : (s = 0 || decide (3 < s)) = true
    · rw [if_pos hbad]
      refine ⟨?_, rfl, rfl⟩
      constructor
      · intro h
        exact absurd h (by simp)
      · intro h
        exact absurd h (by simp)
    · rw [if_neg hbad]
      by_cases he : (sel_result s (os pc)).isEmpty = true
      · rw [if_pos he]
        simp only [Option.isNone_some, Bool.false_eq_true, if_false]
        refine ⟨?_, ?_, ?_⟩
        · simp [isEmptyPollEv]
        · simp [activeRegs, regStep]
        · simp
      · rw [if_neg he]
        obtain ⟨hhead, hne⟩ := sel_result_headD s (os pc) he
        have hemp : isEmptyPollEv (Ev.selPoll (some T) (sel_result s (os pc))) = false := by
          unfold sel_result at *
          by_cases hz : sel_events s (os pc) = 0
          · simp [hz] at he
          · simp only [hz, if_neg hz]
            rfl
        rcases hg2 : gen (hist ++ [(sel_result s (os pc)).headD 0]) with ⟨fd2, s2⟩ | rv <;>
          simp only [hg2]
        · obtain ⟨ih1, ih2, ih3⟩ := ih (hist ++ [(sel_result s (os pc)).headD 0]) fd2 s2 (pc + 1)
          refine ⟨?_, ?_, ?_⟩
          · simp only [List.any_cons, hemp, Bool.false_or]
            exact ih1
          · simp only [activeRegs, List.foldl_cons, regStep] at ih2 ⊢
            simpa using ih2
          · simp only [List.all_cons, hemp, ih3, Bool.and_true]
            simp
        · refine ⟨?_, ?_, ?_⟩
          · constructor
            · intro h
              exact absurd h (by simp)
            · intro h
              simp only [List.any_cons, List.any_nil, hemp] at h
              simp at h
          · simp [activeRegs, regStep]
          · simp [hemp]

theorem connAsyncRun_some_no_hang {RV : Type} (gen : GenC RV) (os : Nat → CoopWake) (T : ℚ) :
    ∀ fuel hist fd s pc, (connAsyncRun gen os (some T) fuel hist fd s pc).1 ≠ Outcome.hang := by
  intro fuel
  induction fuel with
  | zero => intro hist fd s pc; simp [connAsyncRun]
  | succ f ih =>
    intro hist fd s pc
    simp only [connAsyncRun]
    by_cases hbad : (decide (s &&& WAIT_R = 0) && decide (s &&& WAIT_W = 0)) = true
    · rw [if_pos hbad]
      simp
    · rw [if_neg hbad]
      rcases hwk : os pc with ⟨r, w, rLast⟩ | _
      · simp only [hwk]
        by_cases hfire : (!((s &&& WAIT_R != 0 && r) || (s &&& WAIT_W != 0 && w))) = true
        · rw [if_pos hfire]
          simp
        · rw [if_neg hfire]
          rcases hg2 : gen (hist ++
              [if ((s &&& WAIT_R != 0 && r) && (s &&& WAIT_W != 0 && w)) = true
               then (if rLast = true then READY_R else READY_W)
               else if (s &&& WAIT_R != 0 && r) = true then READY_R else READY_W])
            with ⟨fd2, s2⟩ | rv <;> simp only [hg2]
          · exact ih _ fd2 s2 (pc + 1)
          · simp
      · simp [hwk]

/-- C3: For the connection-phase engines run with a non-zero timeout `T`, the
timeout applies per wait cycle: every `sel.select` call of a `wait_conn` run
is made with the same timeout `T` (never a remaining-time value), the run
raises `ConnectionTimeout` exactly when one of its waits observes no readiness
within `T` (an empty poll result), and on every exit the current registration
has already been removed (`activeRegs`/`activeCbs` empty — for the cooperative
variant the callbacks are removed before the error propagates); finally, a
cycle whose descriptor never becomes ready does raise `ConnectionTimeout` in
both engines. -/
theorem c3_conn_timeout_per_cycle :
    ∀ (RV : Type) (genc : GenC RV) (osSel : Nat → Bool × Bool) (osCoop : Nat → CoopWake)
      (T : ℚ) (fuel : Nat), T ≠ 0 →
      (((wait_conn genc (some T) osSel fuel).1 = Outcome.connTimeout ↔
        (wait_conn genc (some T) osSel fuel).2.any isEmptyPollEv = true) ∧
       activeRegs (wait_conn genc (some T) osSel fuel).2 = [] ∧
       ((wait_conn genc (some T) osSel fuel).2.all fun e =>
         match e with
         | Ev.selPoll tm _ => tm == some T
         | _ => true) = true) ∧
      activeCbs (wait_conn_async genc (some T) osCoop fuel).2 = ([], []) ∧
      (∀ fd s, genc [] = GenStepC.wait fd s → 1 ≤ s → s ≤ 3 → 1 ≤ fuel →
        (wait_conn genc (some T) (fun _ => (false, false)) fuel).1 = Outcome.connTimeout ∧
        (wait_conn_async genc (some T) (fun _ => CoopWake.wake false false false) fuel).1 =
          Outcome.connTimeout) := by
  intro RV genc osSel osCoop T fuel hT
  have hco : coerceConnTimeout (some T) = some T := by simp [coerceConnTimeout, hT]
  refine ⟨?_, ?_, ?_⟩
  · unfold wait_conn
    rcases hg : genc [] with ⟨fd, s⟩ | rv <;> simp only [hg, hco]
    · exact connRun_timeout_spec genc osSel T fuel [] fd s 0
    · refine ⟨?_, rfl, rfl⟩
      constructor
      · intro h
        exact absurd h (by simp)
      · intro h
        exact absurd h (by simp)
  · unfold wait_conn_async
    rcases hg : genc [] with ⟨fd, s⟩ | rv <;> simp only [hg, hco]
    · exact (connAsyncRun_cbs genc osCoop (some T) fuel [] fd s 0).1
        (connAsyncRun_some_no_hang genc osCoop T fuel [] fd s 0)
    · rfl
  · intro fd s hg hs1 hs3 hfuel
    rcases fuel with _ | f
    · exact absurd hfuel (by norm_num)
    · have hmask : ¬(s &&& WAIT_R = 0 ∧ s &&& WAIT_W = 0) := by
        interval_cases s <;> decide
      constructor
      · unfold wait_conn
        simp only [hg, hco, connRun]
        rw [if_neg (by simp +decide; omega)]
        rw [if_pos (show (sel_result s ((fun _ => (false, false)) 0)).isEmpty = true by
          simp [sel_result, sel_events])]
        simp
      · unfold wait_conn_async
        simp only [hg, hco]
        simp [connAsyncRun, hmask]

/-- Witness for C3 at a concrete input (timeout `1`, fuel `2`). -/
theorem c3_witness :
    ((1 : ℚ) ≠ 0) ∧ c3g [] = GenStepC.wait 3 1 ∧
    (((wait_conn c3g (some 1) c3osSel 2).1 = Outcome.connTimeout ↔
      (wait_conn c3g (some 1) c3osSel 2).2.any isEmptyPollEv = true) ∧
     activeRegs (wait_conn c3g (some 1) c3osSel 2).2 = [] ∧
     ((wait_conn c3g (some 1) c3osSel 2).2.all fun e =>
       match e with
       | Ev.selPoll tm _ => tm == some (1 : ℚ)
       | _ => true) = true) ∧
    activeCbs (wait_conn_async c3g (some 1) c3osCoop 2).2 = ([], []) ∧
    ((wait_conn c3g (some 1) (fun _ => (false, false)) 2).1 = Outcome.connTimeout ∧
     (wait_conn_async c3g (some 1) (fun _ => CoopWake.wake false false false) 2).1 =
       Outcome.connTimeout) := by
  have h := c3_conn_timeout_per_cycle Nat c3g c3osSel c3osCoop 1 2 (by norm_num)
  exact ⟨by norm_num, rfl, h.1, h.2.1,
    h.2.2 3 1 rfl (by norm_num) (by norm_num) (by norm_num)⟩

theorem epollRun_no_register {RV : Type} (gen : Gen RV) (os : Nat → EpWake) (fileno : Nat)
    (tmo : Int) :
    ∀ fuel hist evmask pc, countRegisters (epollRun gen os fileno tmo fuel hist evmask pc).2 = 0 := by
  intro fuel
  induction fuel with
  | zero => intro hist evmask pc; rfl
  | succ f ih =>
    intro hist evmask pc
    simp only [epollRun]
    by_cases hz : epoll_events evmask (os pc) = 0
    · rw [if_pos hz]
      simp [countRegisters, List.countP_cons] at ih ⊢
      exact ih hist evmask (pc + 1)
    · rw [if_neg hz]
      rcases hg2 : gen (hist ++ [epReady (epoll_events evmask (os pc))]) with s2 | rv <;>
        simp only [hg2]
      · rcases hm2 : poll_evmasks s2 with _ | m2 <;> simp only [hm2]
        · rfl
        · simp [countRegisters, List.countP_cons] at ih ⊢
          exact ih _ m2 (pc + 1)
      · rfl

theorem epollRun_epArm {RV : Type} (gen : Gen RV) (os : Nat → EpWake) (fileno : Nat)
    (tmo : Int) :
    ∀ fuel hist evmask pc s, gen hist = .wait s → poll_evmasks s = some evmask →
      EpArm gen fileno hist (epollRun gen os fileno tmo fuel hist evmask pc).2 := by
  intro fuel
  induction fuel with
  | zero => intro hist evmask pc s hg hm; exact trivial
  | succ f ih =>
    intro hist evmask pc s hg hm
    simp only [epollRun]
    by_cases hz : epoll_events evmask (os pc) = 0
    · rw [if_pos hz]
      simp only [EpArm]
      exact ih hist evmask (pc + 1) s hg hm
    · rw [if_neg hz]
      rcases hg2 : gen (hist ++ [epReady (epoll_events evmask (os pc))]) with s2 | rv <;>
        simp only [hg2]
      · rcases hm2 : poll_evmasks s2 with _ | m2 <;> simp only [hm2]
        · simp only [EpArm, hg2]
          exact hm2
        · simp only [EpArm, hg2]
          exact ⟨by simp [hm2], ih _ m2 (pc + 1) s2 hg2 hm2⟩
      · simp only [EpArm, hg2]

theorem countRegisters_cons_register (fd m : Nat) (l : List Ev) :
    countRegisters (.register fd m :: l) = countRegisters l + 1 := by
  simp [countRegisters, List.countP_cons]

/-- C6: In the epoll engine the descriptor is registered exactly once, as the
very first action and with the oneshot flag combination of the initial mask;
afterwards the trace consists of poll/resume cycles in which every resume that
leaves the operation suspended on a mask known to `poll_evmasks` is followed
by exactly one `modify` re-arming the same descriptor with the oneshot flags
of that new mask — never a second `register`, never zero re-arms. -/
theorem c6_epoll_register_once_rearm_per_resume :
    ∀ (RV : Type) (gen : Gen RV) (fileno : Nat) (tmo : Option ℚ) (os : Nat → EpWake)
      (fuel : Nat), EpShape gen fileno (wait_epoll gen fileno tmo os fuel).2 := by
  intro RV gen fileno tmo os fuel
  unfold EpShape wait_epoll
  rcases hg : gen [] with s | rv
  · simp only [hg]
    rcases hm : poll_evmasks s with _ | m
    · simp only [hm]
    · simp only [hm]
      refine ⟨?_, ?_, ?_⟩
      · rfl
      · rw [countRegisters_cons_register,
          epollRun_no_register gen os fileno (epCoerce tmo) fuel [] m 0]
      · simp only [List.tail_cons]
        exact epollRun_epArm gen os fileno (epCoerce tmo) fuel [] m 0 s hg hm
  · simp only [hg]

theorem connRun_connReg {RV : Type} (gen : GenC RV) (os : Nat → Bool × Bool)
    (tmo : Option ℚ) :
    ∀ fuel hist fd s pc, gen hist = .wait fd s →
      ConnReg gen hist (connRun gen os tmo fuel hist fd s pc).2 := by
  intro fuel
  induction fuel with
  | zero => intro hist fd s pc hg; exact trivial
  | succ f ih =>
    intro hist fd s pc hg
    simp only [connRun]
    by_cases hbad : (s = 0 || decide (3 < s)) = true
    · rw [if_pos hbad]
      exact trivial
    · rw [if_neg hbad]
      by_cases he : (sel_result s (os pc)).isEmpty = true
      · rw [if_pos he]
        by_cases ht : tmo.isNone = true
        · rw [if_pos ht]
          simp only [ConnReg]
          exact hg
        · rw [if_neg ht]
          simp only [ConnReg]
          exact ⟨hg, trivial⟩
      · rw [if_neg he]
        have hres : sel_result s (os pc) = [sel_events s (os pc)] := by
          unfold sel_result at he ⊢
          by_cases hz : sel_events s (os pc) = 0
          · simp [hz] at he
          · rw [if_neg hz]
        rw [hres]
        simp only [List.headD_cons]
        rcases hg2 : gen (hist ++ [sel_events s (os pc)]) with ⟨fd2, s2⟩ | rv <;>
          simp only [hg2]
        · simp only [ConnReg]
          exact ⟨hg, trivial, trivial, ih _ fd2 s2 (pc + 1) hg2⟩
        · simp only [ConnReg]
          exact ⟨hg, trivial, trivial, trivial⟩

/-- C8: In `wait_conn` every suspension yields a `(descriptor, mask)` pair and
each cycle registers exactly the most recently yielded pair, performs its one
wait while that registration is the sole active one, and deregisters it before
the operation is resumed and before any further registration — so when the
yielded descriptor changes, the old one is always deregistered before the new
one is registered and before any waiting occurs. -/
theorem c8_conn_sole_registration_is_latest_yield :
    ∀ (RV : Type) (genc : GenC RV) (tmo : Option ℚ) (osSel : Nat → Bool × Bool) (fuel : Nat),
      ConnReg genc [] (wait_conn genc tmo osSel fuel).2 := by
  intro RV genc tmo osSel fuel
  unfold wait_conn
  rcases hg : genc [] with ⟨fd, s⟩ | rv <;> simp only [hg]
  · exact connRun_connReg genc osSel (coerceConnTimeout tmo) fuel [] fd s 0 hg
  · trivial

/-- C9 counterexample: the override check accepts any module global whose name
starts with `wait_`, including `asyncio.wait_for` (imported at line 17), which
is not one of the module's wait functions: `PSYCOPG_WAIT_FUNC=wait_for` is not
a strategy of the registry of available wait functions, yet initialization
does not raise — it silently installs `asyncio.wait_for` as the process-wide
`wait` strategy. -/
theorem c9_counterexample_wait_for_accepted :
    selectWaitStrategy ⟨some waitForName, false, false, false, false⟩ = .ok waitForName ∧
    (availableWaitFuncs false).contains waitForName = false ∧
    (availableWaitFuncs true).contains waitForName = false := by
  refine ⟨rfl, by decide, by decide⟩

/-- C9 (amended): an explicit `PSYCOPG_WAIT_FUNC` override raises `ImportError`
at initialization, before any engine runs, exactly when the name does not
start with `wait_` or is not one of the module's `wait_`-prefixed globals; a
name passing that check becomes the process-wide strategy — but the check is
against module globals, so it also admits the imported `asyncio.wait_for`,
which is not an available wait function. -/
theorem c9_amended_env_override_validation :
    ∀ (p : Platform) (fname : String), p.envFunc = some fname →
      ((strStartsWith fname waitPrefix = false ∨
        (waitPrefixedGlobals p.hasC).contains fname = false) →
        selectWaitStrategy p = .error ()) ∧
      (strStartsWith fname waitPrefix = true →
        (waitPrefixedGlobals p.hasC).contains fname = true →
        selectWaitStrategy p = .ok fname) := by
  intro p fname henv
  unfold selectWaitStrategy
  simp only [henv]
  constructor
  · intro h
    rcases h with h | h
    · rw [if_pos (by simp [h])]
    · have h2 : fname ∉ waitPrefixedGlobals p.hasC := by simpa using h
      rw [if_pos (by simp [h2])]
  · intro h1 h2
    have h3 : fname ∈ waitPrefixedGlobals p.hasC := by simpa using h2
    rw [if_neg (by simp [h1, h3])]

/-- Witness for the amended C9: `wait_selectorx` is rejected, `wait_select` is
accepted and becomes the selected strategy. -/
theorem c9_amended_witness :
    (Platform.mk (some waitSelectName) false false false false).envFunc =
      some waitSelectName ∧
    strStartsWith waitSelectName waitPrefix = true ∧
    (waitPrefixedGlobals false).contains waitSelectName = true ∧
    selectWaitStrategy ⟨some waitSelectName, false, false, false, false⟩ =
      .ok waitSelectName := by
  refine ⟨rfl, by decide, by decide, ?_⟩
  exact (c9_amended_env_override_validation
    ⟨some waitSelectName, false, false, false, false⟩ waitSelectName rfl).2
    (by decide) (by decide)

end Psycopg
